import Mathlib

/-!
# Verification of the color-quantizer core

Shallow embedding of the quantization engine of the `color-quantizer`
repository (`src/color_quantizers.rs`, `src/algorithms.rs`,
`src/processed_images_cache.rs`) and proofs about it.

Machine integers (`u8`, `u32`, `usize`) are embedded as `Nat` (with `Int`
where signed arithmetic occurs).  The `f32` arithmetic of the source is
embedded exactly: every float computation the quantizers perform stays
within dyadic rationals with denominator 16 and magnitude below 2^10,
which `f32` represents exactly, so the embeddings below compute the very
same values using integer arithmetic (details at each definition).

The file is organised as: all definitions (the model) first, then all
lemmas and the claim theorems.
-/

namespace ColorQuantizer

/-- Embedding of `egui::Color32`: an RGBA quadruple of bytes (each in
`[0,255]`; we use `Nat` and keep the byte range as an invariant of the
operations). -/
structure Color where
  r : Nat
  g : Nat
  b : Nat
  a : Nat
  deriving DecidableEq, Repr

/-- `Color32::from_rgb(r, g, b)`: fully opaque color (alpha = 255). -/
def Color.from_rgb (r g b : Nat) : Color := ⟨r, g, b, 255⟩

/-- `Color32::to_array`: the `[r, g, b, a]` byte quadruple. -/
def Color.to_array (c : Color) : List Nat := [c.r, c.g, c.b, c.a]

/-- Embedding of `egui::ColorImage`: `size = [width, height]` plus the
row-major pixel list.  The well-formedness invariant
`pixels.length = width * height` is carried as a hypothesis where needed. -/
structure Image where
  width : Nat
  height : Nat
  pixels : List Color
  deriving DecidableEq, Repr

/-- `egui`'s `Color32::from_rgba_unmultiplied(r, g, b, a)`.  The only
branch ever exercised by the quantizers is `a = 255` (they emit pixels
via `Color32::from_rgb`, whose alpha is 255), where the conversion is the
identity.  The `a = 0` branch is `TRANSPARENT`; the remaining branch
premultiplies (in egui via gamma-space blending — approximated here by
linear premultiplication; it is unreachable in this development). -/
def Color.from_rgba_unmultiplied (r g b a : Nat) : Color :=
  if a = 255 then ⟨r, g, b, 255⟩
  else if a = 0 then ⟨0, 0, 0, 0⟩
  else ⟨r * a / 255, g * a / 255, b * a / 255, a⟩

/-- Regroup a flat RGBA byte sequence into pixels, applying
`Color32::from_rgba_unmultiplied` to each quadruple (this is what
`ColorImage::from_rgba_unmultiplied` does to its byte slice). -/
def bytesToColors : List Nat → List Color
  | r :: g :: b :: a :: rest => Color.from_rgba_unmultiplied r g b a :: bytesToColors rest
  | _ => []

/-- `ColorImage::from_rgba_unmultiplied(size, bytes)`. -/
def ColorImage.from_rgba_unmultiplied (size : Nat × Nat) (bytes : List Nat) : Image :=
  ⟨size.1, size.2, bytesToColors bytes⟩

/-- `slice::par_chunks(c)`: split a list into consecutive chunks of
length `c` (the last one possibly shorter).  Rayon's parallel iterator
concatenates the per-chunk results in order, so `par_chunks(c).flat_map`
is chunk-wise `flatMap` followed by in-order concatenation. -/
def list_chunks (c : Nat) : List α → List (List α)
  | [] => []
  | x :: xs =>
    if _h : c = 0 then []
    else (x :: xs).take c :: list_chunks c ((x :: xs).drop c)
  termination_by l => l.length
  decreasing_by
    simp only [List.length_drop, List.length_cons]
    omega

/-- Sequential `flatMap` with the running global index: the reference
form of rayon's `par_chunks(c).enumerate().flat_map(..)` pipelines
(bridged by a lemma below). -/
def indexed_flat_map (f : Nat → α → List β) : List α → Nat → List β
  | [], _ => []
  | x :: xs, i => f i x ++ indexed_flat_map f xs (i + 1)

/-- Map with the running global index (the pixel-list form of
`indexed_flat_map` pipelines whose per-pixel output is one color's four
bytes). -/
def indexed_map (g : Nat → α → β) : List α → Nat → List β
  | [], _ => []
  | x :: xs, i => g i x :: indexed_map g xs (i + 1)

/-- Two colors agreeing on the three RGB channels (alpha unconstrained). -/
def rgbEq (c₁ c₂ : Color) : Prop :=
  c₁.r = c₂.r ∧ c₁.g = c₂.g ∧ c₁.b = c₂.b

/-! ## `src/algorithms.rs`: algorithm identifiers, parameters, cache keys -/

/-- `enum Algorithm`: the closed set of five quantization strategies. -/
inductive Algorithm where
  | AverageDithering
  | ErrorDiffusionDithering
  | OrderedDitheringRandom
  | OrderedDitheringRelative
  | PopularityAlgorithm
  deriving DecidableEq, Repr

/-- `struct DitheringParameters { k_r, k_g, k_b: u8 }`. -/
structure DitheringParameters where
  k_r : Nat
  k_g : Nat
  k_b : Nat
  deriving DecidableEq, Repr

/-- `struct PopularityParameters { k: usize }`. -/
structure PopularityParameters where
  k : Nat
  deriving DecidableEq, Repr

/-- `enum AlgorithmParameters`. -/
inductive AlgorithmParameters where
  | Dithering (p : DitheringParameters)
  | Popularity (p : PopularityParameters)
  deriving DecidableEq, Repr

/-- `struct AlgorithmCacheKey { algorithm, params }`. -/
structure AlgorithmCacheKey where
  algorithm : Algorithm
  params : AlgorithmParameters
  deriving DecidableEq, Repr

/-! ## `DitheringCommon`: level tables and nearest-level lookup -/

namespace DitheringCommon

/-- `DitheringCommon::generate_color_levels(k)`:
`(0..k).map(|i| ((i as f32) * 255.0 / (k - 1) as f32).round() as u8)`.

The `f32` computation is exact up to the final rounding: `i * 255 ≤ 65025`
is exactly representable, and the quotient `i*255/(k-1)` lies within
`2^-9` of the nearest representable `f32`, while (for `k ≤ 255`) its
distance to the nearest half-integer is either `0` — in which case the
half-integer is itself representable and `f32::round` (ties away from
zero, here ties up) applies to it exactly — or at least `1/508`.  Hence
the result equals exact round-half-up of the rational `i*255/(k-1)`,
i.e. `⌊(2*i*255 + (k-1)) / (2*(k-1))⌋`, and it never exceeds 255, so the
`as u8` cast is the identity. -/
def generate_color_levels (k : Nat) : List Nat :=
  (List.range k).map (fun i => (2 * (i * 255) + (k - 1)) / (2 * (k - 1)))

/-- Core's `slice::binary_search` loop (`binary_search_by` with
`|p| p.cmp(&target)`): maintain `[lo, hi)`, probe `mid = lo + (hi-lo)/2`,
answer `Ok idx` (element found at `idx`) or `Err idx` (insertion point).
`fuel` bounds the number of iterations; every iteration shrinks `hi - lo`
by at least one, so with `fuel ≥ hi - lo` (all call sites start at
`fuel = hi - lo`) the `fuel = 0` case coincides with the loop's
`lo ≥ hi` exit and the function computes exactly the source loop
(established by the lemmas below). -/
def binary_search_go (levels : List Nat) (target : Nat) :
    Nat → Nat → Nat → Except Nat Nat
  | 0, lo, _hi => .error lo
  | fuel + 1, lo, hi =>
    if lo < hi then
      let mid := lo + (hi - lo) / 2
      let v := levels.getD mid 0
      if v < target then binary_search_go levels target fuel (mid + 1) hi
      else if target < v then binary_search_go levels target fuel lo mid
      else .ok mid
    else .error lo

/-- `DitheringCommon::find_closest_level(value, levels)`: clamp below the
first and above the last level, otherwise binary-search and take the
nearer of the two surrounding levels, preferring the lower one on ties
(`(value - prev) <= (next - value)`; both subtractions are on `u8` and
cannot underflow because `prev < value < next` holds in that branch —
proved in the lemmas below). -/
def find_closest_level (value : Nat) (levels : List Nat) : Nat :=
  if value ≤ levels.getD 0 0 then levels.getD 0 0
  else if levels.getD (levels.length - 1) 0 ≤ value then levels.getD (levels.length - 1) 0
  else
    match binary_search_go levels value levels.length 0 levels.length with
    | .ok idx => levels.getD idx 0
    | .error idx =>
      let prev := levels.getD (idx - 1) 0
      let next := levels.getD idx 0
      if value - prev ≤ next - value then prev else next

end DitheringCommon

/-! ## `AverageDitheringColorQuantizer` -/

namespace AverageDitheringColorQuantizer

/-- `AverageDitheringColorQuantizer::generate_output_image`: per-channel
nearest-level mapping over 256-pixel parallel chunks. -/
def generate_output_image (params : DitheringParameters) (initial_image : Image) : Image :=
  let r_levels := DitheringCommon.generate_color_levels params.k_r
  let g_levels := DitheringCommon.generate_color_levels params.k_g
  let b_levels := DitheringCommon.generate_color_levels params.k_b
  let output_pixels :=
    (list_chunks 256 initial_image.pixels).flatMap (fun chunk =>
      chunk.flatMap (fun pixel =>
        let r := DitheringCommon.find_closest_level pixel.r r_levels
        let g := DitheringCommon.find_closest_level pixel.g g_levels
        let b := DitheringCommon.find_closest_level pixel.b b_levels
        (Color.from_rgb r g b).to_array))
  ColorImage.from_rgba_unmultiplied (initial_image.width, initial_image.height) output_pixels

end AverageDitheringColorQuantizer

/-! ## `PopularityAlgorithmColorQuantizer` -/

namespace PopularityAlgorithmColorQuantizer

/-- `PopularityAlgorithmColorQuantizer::colors_distance`: squared
Euclidean RGB distance (alpha ignored).  The `f32` arithmetic is exact:
the differences are integers of magnitude ≤ 255, their squares ≤ 65025
and the sum ≤ 195075 < 2^24, all exactly representable, so `f32`
comparison agrees with exact integer comparison (`partial_cmp` never
sees NaN). -/
def colors_distance (lhs rhs : Color) : Int :=
  let r_diff : Int := (lhs.r : Int) - (rhs.r : Int)
  let g_diff : Int := (lhs.g : Int) - (rhs.g : Int)
  let b_diff : Int := (lhs.b : Int) - (rhs.b : Int)
  r_diff * r_diff + g_diff * g_diff + b_diff * b_diff

/-- `PopularityAlgorithmColorQuantizer::find_closest_color`:
`Iterator::min_by` keeps the first element among equal minima, i.e. a
left fold replacing the current minimum only on strictly smaller
distance.  `none` models the `expect("Color should never be empty")`
panic on an empty palette. -/
def find_closest_color (pixel : Color) : List Color → Option Color
  | [] => none
  | c :: cs =>
    some (cs.foldl (fun m x =>
      if colors_distance pixel x < colors_distance pixel m then x else m) c)

/-- Stable insertion of an entry into a count-descending list: the new
entry goes before the first entry whose count is `≤` its own.  Folding
this over the list (`sort_desc_by_count`) yields the unique stable
descending order, the same list Rust's stable
`sort_by(|lhs, rhs| rhs.1.cmp(&lhs.1))` produces. -/
def insert_desc (x : Color × Nat) : List (Color × Nat) → List (Color × Nat)
  | [] => [x]
  | y :: ys => if y.2 ≤ x.2 then x :: y :: ys else y :: insert_desc x ys

/-- Stable sort by descending count (see `insert_desc`). -/
def sort_desc_by_count (l : List (Color × Nat)) : List (Color × Nat) :=
  l.foldr insert_desc []

/-- `PopularityAlgorithmColorQuantizer::find_most_popular_k_colors`.
The `HashMap<Color32, usize>` holds each distinct pixel color with its
occurrence count; its iteration order is not deterministic (per-instance
random hash state), so it is passed in as `iterOrder` — a permutation of
the distinct colors of the image.  The counts themselves are
deterministic (`List.count`). -/
def find_most_popular_k_colors (iterOrder : List Color) (initial_image : Image)
    (k : Nat) : List Color :=
  let colors_vec := iterOrder.map (fun c => (c, initial_image.pixels.count c))
  ((sort_desc_by_count colors_vec).take k).map Prod.fst

/-- Map every pixel to its closest palette color, producing the flat
RGBA byte list; `none` models the panic inside the (order-preserving)
parallel pixel loop when the palette is empty. -/
def map_closest (colors : List Color) : List Color → Option (List Nat)
  | [] => some []
  | p :: ps =>
    match find_closest_color p colors, map_closest colors ps with
    | some c, some rest => some (c.to_array ++ rest)
    | _, _ => none

/-- `PopularityAlgorithmColorQuantizer::generate_output_image`.  The
source iterates `par_chunks(256).flat_map`, which produces the same
byte list as the direct pixel loop (chunks are concatenated in order);
a panic anywhere inside it aborts the call, modelled by `none`. -/
def generate_output_image (iterOrder : List Color) (params : PopularityParameters)
    (initial_image : Image) : Option Image :=
  let colors := find_most_popular_k_colors iterOrder initial_image params.k
  (map_closest colors initial_image.pixels).map (fun bytes =>
    ColorImage.from_rgba_unmultiplied (initial_image.width, initial_image.height) bytes)

end PopularityAlgorithmColorQuantizer

/-! ## `ErrorDiffusionDitheringColorQuantizer` -/

namespace ErrorDiffusionDitheringColorQuantizer

/-- `ERROR_WAGE_MATRIX: [f32; 4] = [0.4375, 0.1875, 0.3125, 0.0625]`,
represented by its exact numerators over 16: `[7, 3, 5, 1]/16`. -/
def ERROR_WAGE_MATRIX_NUM : List Int := [7, 3, 5, 1]

/-- `find_closest_level_and_diff`: nearest level and the signed residual
`value - level` (an integer, exact in `f32`). -/
def find_closest_level_and_diff (value : Nat) (levels : List Nat) : Nat × Int :=
  let level := DitheringCommon.find_closest_level value levels
  (level, (value : Int) - (level : Int))

/-- The `as u8` cast applied to the exactly-represented `f32` value
`t/16`: truncate toward zero, then saturate into `[0,255]`.  Any
negative `t` yields `0` (truncation of a value in `(-1,0]` gives `0`;
more negative values saturate at `0`). -/
def f32_sixteenths_as_u8 (t : Int) : Nat :=
  if t < 0 then 0 else min 255 (t.toNat / 16)

/-- `get_color_with_err(color, error, r_diff, g_diff, b_diff)` with the
weight `error = w/16` passed by its numerator `w`: per channel,
`(channel as f32 + (w/16) * diff) as u8` — computed exactly as
`f32_sixteenths_as_u8 (16*channel + w*diff)` (the `f32` sum is a dyadic
rational with denominator 16 and magnitude < 512, hence exact). -/
def get_color_with_err (color : Color) (w : Int) (r_diff g_diff b_diff : Int) : Color :=
  Color.from_rgb
    (f32_sixteenths_as_u8 (16 * (color.r : Int) + w * r_diff))
    (f32_sixteenths_as_u8 (16 * (color.g : Int) + w * g_diff))
    (f32_sixteenths_as_u8 (16 * (color.b : Int) + w * b_diff))

/-- `ErrorDiffusionDitheringColorQuantizer::add_error`: write the
weighted residual into the pixel at linear index `row * width + col`
when that index is in range — note the guard is only `id <
output_pixels.len()`, a *linear* bound, not a column bound. -/
def add_error (output_pixels : List Color) (row col width : Nat)
    (w : Int) (r_diff g_diff b_diff : Int) : List Color :=
  let id := row * width + col
  if id < output_pixels.length then
    output_pixels.set id
      (get_color_with_err (output_pixels.getD id ⟨0, 0, 0, 0⟩) w r_diff g_diff b_diff)
  else output_pixels

/-- The body of one iteration of the raster-scan diffusion loop at
index `i`: quantize the pixel in place, then distribute the residual to
the four Floyd–Steinberg neighbor slots via `add_error`. -/
def diffusion_step (width : Nat) (r_levels g_levels b_levels : List Nat)
    (output_pixels : List Color) (i : Nat) : List Color :=
  let pixel := output_pixels.getD i ⟨0, 0, 0, 0⟩
  let rp := find_closest_level_and_diff pixel.r r_levels
  let gp := find_closest_level_and_diff pixel.g g_levels
  let bp := find_closest_level_and_diff pixel.b b_levels
  let buf0 := output_pixels.set i (Color.from_rgb rp.1 gp.1 bp.1)
  let row := i / width
  let column := i - row * width
  let buf1 := add_error buf0 row (column + 1) width
    (ERROR_WAGE_MATRIX_NUM.getD 0 0) rp.2 gp.2 bp.2
  let buf2 :=
    if 0 < column then
      add_error buf1 (row + 1) (column - 1) width
        (ERROR_WAGE_MATRIX_NUM.getD 1 0) rp.2 gp.2 bp.2
    else buf1
  let buf3 := add_error buf2 (row + 1) column width
    (ERROR_WAGE_MATRIX_NUM.getD 2 0) rp.2 gp.2 bp.2
  add_error buf3 (row + 1) (column + 1) width
    (ERROR_WAGE_MATRIX_NUM.getD 3 0) rp.2 gp.2 bp.2

/-- The raster-scan diffusion loop: `fuel` counts the remaining
iterations of the source's `for i in 0..output_pixels.len()` (entered
with `fuel = output_pixels.len()` and `i = 0`, so the body runs exactly
once for each index; the buffer length is invariant — `List.set`
preserves it). -/
def diffusion_loop (width : Nat) (r_levels g_levels b_levels : List Nat) :
    Nat → List Color → Nat → List Color
  | 0, output_pixels, _i => output_pixels
  | fuel + 1, output_pixels, i =>
    diffusion_loop width r_levels g_levels b_levels fuel
      (diffusion_step width r_levels g_levels b_levels output_pixels i) (i + 1)

/-- Modelled from the spec: residual distribution "clamped at image
boundaries (no wraparound; out-of-range targets are silently skipped)"
(spec §4.3, §7).  Identical to `add_error` except that a target whose
column is outside `[0, width)` is skipped, so a residual never wraps to
the first pixels of a subsequent row.  Used only to exhibit where the
source's linear-index-only guard diverges from the spec. -/
def add_error_clamped (output_pixels : List Color) (row col width : Nat)
    (w : Int) (r_diff g_diff b_diff : Int) : List Color :=
  if col < width then add_error output_pixels row col width w r_diff g_diff b_diff
  else output_pixels

/-- Modelled from the spec: one iteration of the diffusion loop with
boundary-clamped residual writes (`add_error_clamped` in place of
`add_error`); otherwise identical to `diffusion_step`. -/
def diffusion_step_clamped (width : Nat) (r_levels g_levels b_levels : List Nat)
    (output_pixels : List Color) (i : Nat) : List Color :=
  let pixel := output_pixels.getD i ⟨0, 0, 0, 0⟩
  let rp := find_closest_level_and_diff pixel.r r_levels
  let gp := find_closest_level_and_diff pixel.g g_levels
  let bp := find_closest_level_and_diff pixel.b b_levels
  let buf0 := output_pixels.set i (Color.from_rgb rp.1 gp.1 bp.1)
  let row := i / width
  let column := i - row * width
  let buf1 := add_error_clamped buf0 row (column + 1) width
    (ERROR_WAGE_MATRIX_NUM.getD 0 0) rp.2 gp.2 bp.2
  let buf2 :=
    if 0 < column then
      add_error_clamped buf1 (row + 1) (column - 1) width
        (ERROR_WAGE_MATRIX_NUM.getD 1 0) rp.2 gp.2 bp.2
    else buf1
  let buf3 := add_error_clamped buf2 (row + 1) column width
    (ERROR_WAGE_MATRIX_NUM.getD 2 0) rp.2 gp.2 bp.2
  add_error_clamped buf3 (row + 1) (column + 1) width
    (ERROR_WAGE_MATRIX_NUM.getD 3 0) rp.2 gp.2 bp.2

/-- Modelled from the spec: the diffusion loop with boundary-clamped
residual writes; otherwise identical to `diffusion_loop`. -/
def diffusion_loop_clamped (width : Nat) (r_levels g_levels b_levels : List Nat) :
    Nat → List Color → Nat → List Color
  | 0, output_pixels, _i => output_pixels
  | fuel + 1, output_pixels, i =>
    diffusion_loop_clamped width r_levels g_levels b_levels fuel
      (diffusion_step_clamped width r_levels g_levels b_levels output_pixels i) (i + 1)

/-- Modelled from the spec: `generate_output_image` running the
boundary-clamped diffusion loop. -/
def generate_output_image_clamped (params : DitheringParameters)
    (initial_image : Image) : Image :=
  let r_levels := DitheringCommon.generate_color_levels params.k_r
  let g_levels := DitheringCommon.generate_color_levels params.k_g
  let b_levels := DitheringCommon.generate_color_levels params.k_b
  let output_pixels :=
    diffusion_loop_clamped initial_image.width r_levels g_levels b_levels
      initial_image.pixels.length initial_image.pixels 0
  ColorImage.from_rgba_unmultiplied (initial_image.width, initial_image.height)
    (output_pixels.flatMap Color.to_array)

/-- `ErrorDiffusionDitheringColorQuantizer::generate_output_image`. -/
def generate_output_image (params : DitheringParameters) (initial_image : Image) : Image :=
  let r_levels := DitheringCommon.generate_color_levels params.k_r
  let g_levels := DitheringCommon.generate_color_levels params.k_g
  let b_levels := DitheringCommon.generate_color_levels params.k_b
  let output_pixels :=
    diffusion_loop initial_image.width r_levels g_levels b_levels
      initial_image.pixels.length initial_image.pixels 0
  ColorImage.from_rgba_unmultiplied (initial_image.width, initial_image.height)
    (output_pixels.flatMap Color.to_array)

end ErrorDiffusionDitheringColorQuantizer

/-! ## `OrderedDitheringCommon` and the two ordered-dithering quantizers -/

namespace OrderedDitheringCommon

/-- `POSSIBLE_N: [u8; 7]`. -/
def POSSIBLE_N : List Nat := [2, 3, 4, 6, 8, 12, 16]

/-- `OrderedDitheringCommon::find_n(k)`: the first candidate `n` with
`n * n * (k - 1) ≥ 256`, falling back to the last candidate `16`.
(Arithmetic is on `u32`, far from overflow; for the `k = 0` the source
would underflow — all call sites have `k ≥ 2`.) -/
def find_n (k : Nat) : Nat :=
  (POSSIBLE_N.find? (fun n => 256 ≤ n * n * (k - 1))).getD 16

/-- `OrderedDitheringCommon::generate_matrix(n)`: hand-specified base
matrices for `n = 2` and `n = 3`; otherwise the recursive Bayer tiling
`{4·sub, 4·sub+2; 4·sub+3, 4·sub+1}` of the matrix for `n/2` into four
quadrants (the double loop over `i, j < n/2` filling the four quadrant
cells, written here quadrant-row-wise).  For `n < 2` the source recurses
forever; such `n` are unreachable (`find_n` yields members of
`POSSIBLE_N` only) and are mapped to `[]`. -/
def generate_matrix : Nat → List (List Nat)
  | 2 => [[0, 2], [3, 1]]
  | 3 => [[6, 8, 4], [1, 0, 3], [5, 2, 7]]
  | n =>
    if _h : 4 ≤ n then
      let half_matrix := generate_matrix (n / 2)
      (half_matrix.map (fun row =>
          row.map (fun v => 4 * v) ++ row.map (fun v => 4 * v + 2)))
        ++ (half_matrix.map (fun row =>
          row.map (fun v => 4 * v + 3) ++ row.map (fun v => 4 * v + 1)))
    else []
  termination_by n => n
  decreasing_by omega

/-- The spec's "4×sub + offset {0,2,3,1}" quadrant construction (top-left,
top-right, bottom-left, bottom-right), stated on its own so the
recursive case of `generate_matrix` can be compared against it. -/
def tile_quadrants (half : List (List Nat)) : List (List Nat) :=
  (half.map (fun row => row.map (fun v => 4 * v) ++ row.map (fun v => 4 * v + 2)))
    ++ (half.map (fun row => row.map (fun v => 4 * v + 3) ++ row.map (fun v => 4 * v + 1)))

end OrderedDitheringCommon

namespace OrderedDitheringRelativeColorQuantizer

/-- `<OrderedDitheringRelativeColorQuantizer as OrderedDitheringCommon>::get_color`:
position-keyed threshold comparison.  `value * (levels.len() - 1)` is
split by `/ 255` and `% 255` into column and remainder; the threshold
cell is `(x mod n, y mod n)`; `re > matrix[i][j] * 255 / n²` rounds up
to `col + 1`. -/
def get_color (value : Nat) (levels : List Nat) (matrix : List (List Nat))
    (x y n : Nat) : Nat :=
  let n_sq := n * n
  let scaled_value := value * (levels.length - 1)
  let col := scaled_value / 255
  let re := scaled_value % 255
  let i := x % n
  let j := y % n
  let final_col := if (matrix.getD i []).getD j 0 * 255 / n_sq < re then col + 1 else col
  levels.getD final_col 0

end OrderedDitheringRelativeColorQuantizer

namespace OrderedDitheringRandomColorQuantizer

/-- `<OrderedDitheringRandomColorQuantizer as OrderedDitheringCommon>::get_color`:
like the relative variant but the threshold cell indices come from two
`thread_rng` draws `gen_range(0..=(n-1))` instead of the pixel position
(the `x`/`y` arguments are ignored).  The draws are supplied by the
entropy oracle as the `draws` pair; `% n` keeps the model total while
every pair in `[0,n)²` is a possible draw. -/
def get_color (draws : Nat × Nat) (value : Nat) (levels : List Nat)
    (matrix : List (List Nat)) (n : Nat) : Nat :=
  let n_sq := n * n
  let scaled_value := value * (levels.length - 1)
  let col := scaled_value / 255
  let re := scaled_value % 255
  let i := draws.1 % n
  let j := draws.2 % n
  let final_col := if (matrix.getD i []).getD j 0 * 255 / n_sq < re then col + 1 else col
  levels.getD final_col 0

end OrderedDitheringRandomColorQuantizer

namespace OrderedDitheringCommon

/-- The stream of `thread_rng` draw pairs consumed by the random
variant, indexed by pixel id and channel index (0 = r, 1 = g, 2 = b):
the only nondeterministic input of a run. -/
def Entropy : Type := Nat → Nat → Nat × Nat

/-- `OrderedDitheringCommon::ordered_dithering_output_image`,
parameterised by the per-channel `get_color` implementation (the trait
method; it receives the channel index so the random variant can consume
its own draws per channel, exactly as three successive `thread_rng`
calls do).  Pixels are processed in 512-pixel chunks with the global
index recovered as `chunk_id * CHUNK_SIZE + pixel_id`, and
`x = id / width`, `y = id mod width`. -/
def ordered_dithering_output_image
    (get_color : Nat → Nat → List Nat → List (List Nat) → Nat → Nat → Nat → Nat)
    (params : DitheringParameters) (initial_image : Image) : Image :=
  let r_levels := DitheringCommon.generate_color_levels params.k_r
  let g_levels := DitheringCommon.generate_color_levels params.k_g
  let b_levels := DitheringCommon.generate_color_levels params.k_b
  let n_r := find_n params.k_r
  let m_r := generate_matrix n_r
  let n_g := find_n params.k_g
  let m_g := generate_matrix n_g
  let n_b := find_n params.k_b
  let m_b := generate_matrix n_b
  let CHUNK_SIZE := 512
  let output_pixels :=
    ((list_chunks CHUNK_SIZE initial_image.pixels).enum).flatMap (fun chunkp =>
      (chunkp.2.enum).flatMap (fun pixelp =>
        let id := chunkp.1 * CHUNK_SIZE + pixelp.1
        let x := id / initial_image.width
        let y := id - x * initial_image.width
        let pixel := pixelp.2
        let new_r := get_color 0 pixel.r r_levels m_r x y n_r
        let new_g := get_color 1 pixel.g g_levels m_g x y n_g
        let new_b := get_color 2 pixel.b b_levels m_b x y n_b
        (Color.from_rgb new_r new_g new_b).to_array))
  ColorImage.from_rgba_unmultiplied (initial_image.width, initial_image.height) output_pixels

end OrderedDitheringCommon

namespace OrderedDitheringRelativeColorQuantizer

/-- `OrderedDitheringRelativeColorQuantizer::generate_output_image`. -/
def generate_output_image (params : DitheringParameters) (initial_image : Image) : Image :=
  OrderedDitheringCommon.ordered_dithering_output_image
    (fun _channel value levels matrix x y n => get_color value levels matrix x y n)
    params initial_image

end OrderedDitheringRelativeColorQuantizer

namespace OrderedDitheringRandomColorQuantizer

/-- `OrderedDitheringRandomColorQuantizer::generate_output_image`,
parameterised by the entropy oracle feeding the `thread_rng` draws. -/
def generate_output_image (e : OrderedDitheringCommon.Entropy)
    (params : DitheringParameters) (initial_image : Image) : Image :=
  OrderedDitheringCommon.ordered_dithering_output_image
    (fun channel value levels matrix x y n =>
      get_color (e (x * initial_image.width + y) channel) value levels matrix n)
    params initial_image

end OrderedDitheringRandomColorQuantizer

/-! ## `src/processed_images_cache.rs`: the LRU result cache -/

/-- `ProcessedImagesCache::create_new_image`: dispatch from
`key.algorithm` to the matching quantizer.  `none` models a panic —
either the `panic!("UNREACHABLE")` on an algorithm/parameter-family
mismatch, or a panic inside the popularity quantizer.  The entropy
oracle `e` and HashMap iteration order `iterOrder` carry the two
nondeterministic inputs (used only by the random ordered variant and
the popularity variant, respectively). -/
def create_new_image (e : OrderedDitheringCommon.Entropy) (iterOrder : List Color)
    (key : AlgorithmCacheKey) (initial_image : Image) : Option Image :=
  match key.algorithm with
  | .AverageDithering =>
    match key.params with
    | .Dithering p => some (AverageDitheringColorQuantizer.generate_output_image p initial_image)
    | .Popularity _ => none
  | .ErrorDiffusionDithering =>
    match key.params with
    | .Dithering p =>
      some (ErrorDiffusionDitheringColorQuantizer.generate_output_image p initial_image)
    | .Popularity _ => none
  | .OrderedDitheringRandom =>
    match key.params with
    | .Dithering p =>
      some (OrderedDitheringRandomColorQuantizer.generate_output_image e p initial_image)
    | .Popularity _ => none
  | .OrderedDitheringRelative =>
    match key.params with
    | .Dithering p =>
      some (OrderedDitheringRelativeColorQuantizer.generate_output_image p initial_image)
    | .Popularity _ => none
  | .PopularityAlgorithm =>
    match key.params with
    | .Dithering _ => none
    | .Popularity p =>
      PopularityAlgorithmColorQuantizer.generate_output_image iterOrder p initial_image

/-- `ProcessedImagesCache`: the `lru::LruCache` state.  Modelled from the
spec: the `lru` crate is an external dependency, not part of this
repository's sources; per the spec's contract (§4.4) it is a bounded
cache with entries `entries` kept in most-recently-used-first order and
fixed `capacity` (a `NonZero<usize>` at construction; positivity is a
hypothesis where needed). -/
structure ProcessedImagesCache where
  capacity : Nat
  entries : List (AlgorithmCacheKey × Image)
  deriving DecidableEq, Repr

namespace ProcessedImagesCache

/-- `ProcessedImagesCache::new(size)`. -/
def new (size : Nat) : ProcessedImagesCache := ⟨size, []⟩

/-- `ProcessedImagesCache::get(key, initial_image)`, built on
`LruCache::get_or_insert(key, closure)` (modelled from the spec: hit —
return the stored image, mark the entry most-recently-used, closure not
invoked; miss — invoke the closure once, insert the result at the head,
dropping the least-recently-used tail entry when the capacity is
exceeded).  The returned `Nat` counts closure invocations (the
side-channel invocation counter); `none` models a panic inside the
closure. -/
def get (e : OrderedDitheringCommon.Entropy) (iterOrder : List Color)
    (cache : ProcessedImagesCache) (key : AlgorithmCacheKey) (initial_image : Image) :
    Option (Image × ProcessedImagesCache × Nat) :=
  match cache.entries.find? (fun p => p.1 == key) with
  | some entry =>
    some (entry.2,
      ⟨cache.capacity, (key, entry.2) :: cache.entries.eraseP (fun p => p.1 == key)⟩, 0)
  | none =>
    match create_new_image e iterOrder key initial_image with
    | none => none
    | some v =>
      some (v, ⟨cache.capacity, ((key, v) :: cache.entries).take cache.capacity⟩, 1)

/-- `ProcessedImagesCache::clear()`. -/
def clear (cache : ProcessedImagesCache) : ProcessedImagesCache :=
  ⟨cache.capacity, []⟩

end ProcessedImagesCache

/-! # Lemmas and claim theorems -/

/-! ## Chunked-pipeline bridging lemmas

Rayon's `par_chunks(c) ... flat_map ... collect` pipelines concatenate
per-chunk results in order; these lemmas rewrite them to the plain
sequential forms (`List.flatMap` / `indexed_flat_map`). -/

theorem flatMap_list_chunks (c : Nat) (hc : c ≠ 0) (f : α → List β) :
    ∀ l : List α,
    (list_chunks c l).flatMap (fun ch => ch.flatMap f) = l.flatMap f
  | [] => by simp [list_chunks]
  | x :: xs => by
    rw [list_chunks]
    rw [dif_neg hc]
    rw [List.flatMap_cons, flatMap_list_chunks c hc f ((x :: xs).drop c),
      ← List.flatMap_append, List.take_append_drop]
  termination_by l => l.length
  decreasing_by
    simp only [List.length_drop, List.length_cons]
    omega

theorem indexed_flat_map_append (f : Nat → α → List β) (t : List α) :
    ∀ (s : List α) (b : Nat),
    indexed_flat_map f (s ++ t) b
      = indexed_flat_map f s b ++ indexed_flat_map f t (b + s.length) := by
  intro s
  induction s with
  | nil => intro b; simp [indexed_flat_map]
  | cons x xs ih =>
    intro b
    simp only [List.cons_append, indexed_flat_map, List.length_cons, List.append_eq]
    rw [ih (b + 1)]
    rw [show b + 1 + xs.length = b + (xs.length + 1) from by omega]
    rw [List.append_assoc]

theorem enumFrom_flatMap_eq_indexed (f : Nat → α → List β) :
    ∀ (l : List α) (s : Nat),
    (List.enumFrom s l).flatMap (fun q => f q.1 q.2) = indexed_flat_map f l s := by
  intro l
  induction l with
  | nil => intro s; simp [indexed_flat_map]
  | cons x xs ih =>
    intro s
    rw [List.enumFrom_cons, List.flatMap_cons, ih (s + 1)]
    rfl

theorem indexed_flat_map_shift (f : Nat → α → List β) (k : Nat) :
    ∀ (l : List α) (b : Nat),
    indexed_flat_map (fun i x => f (k + i) x) l b = indexed_flat_map f l (k + b) := by
  intro l
  induction l with
  | nil => intro b; rfl
  | cons x xs ih =>
    intro b
    simp only [indexed_flat_map, ih (b + 1)]
    have h : k + (b + 1) = k + b + 1 := by omega
    rw [h]

theorem chunked_flatMap_enumFrom (c : Nat) (hc : c ≠ 0) (f : Nat → α → List β) :
    ∀ (l : List α) (s : Nat),
    ((list_chunks c l).enumFrom s).flatMap
        (fun p => p.2.enum.flatMap (fun q => f (p.1 * c + q.1) q.2))
      = indexed_flat_map f l (s * c)
  | [], s => by simp [list_chunks, indexed_flat_map]
  | x :: xs, s => by
    rw [list_chunks]
    rw [dif_neg hc]
    rw [List.enumFrom_cons, List.flatMap_cons,
      chunked_flatMap_enumFrom c hc f ((x :: xs).drop c) (s + 1)]
    have hinner : (((x :: xs).take c).enum).flatMap (fun q => f (s * c + q.1) q.2)
        = indexed_flat_map f ((x :: xs).take c) (s * c) := by
      have h1 := enumFrom_flatMap_eq_indexed (fun i y => f (s * c + i) y) ((x :: xs).take c) 0
      have h2 := indexed_flat_map_shift f (s * c) ((x :: xs).take c) 0
      rw [show List.enum ((x :: xs).take c) = List.enumFrom 0 ((x :: xs).take c) from rfl]
      rw [h1, h2, Nat.add_zero]
    simp only []
    rw [hinner]
    rcases le_or_lt c (x :: xs).length with hlen | hlen
    · conv_rhs => rw [← List.take_append_drop c (x :: xs)]
      rw [indexed_flat_map_append f _ _ (s * c), List.length_take,
        Nat.min_eq_left hlen, Nat.succ_mul]
    · have hdrop : (x :: xs).drop c = [] := by
        rw [List.drop_eq_nil_iff]
        omega
      have htake : (x :: xs).take c = x :: xs := by
        apply List.take_of_length_le
        omega
      rw [hdrop, htake]
      simp [list_chunks, indexed_flat_map]
  termination_by l => l.length
  decreasing_by
    simp only [List.length_drop, List.length_cons]
    omega

theorem chunked_flatMap_enum (c : Nat) (hc : c ≠ 0) (f : Nat → α → List β) (l : List α) :
    ((list_chunks c l).enum).flatMap
        (fun p => p.2.enum.flatMap (fun q => f (p.1 * c + q.1) q.2))
      = indexed_flat_map f l 0 := by
  rw [show (list_chunks c l).enum = (list_chunks c l).enumFrom 0 from rfl,
    chunked_flatMap_enumFrom c hc f l 0, Nat.zero_mul]

/-! ## `indexed_map` and byte-regrouping lemmas -/

theorem indexed_flat_map_to_array (g : Nat → Color → Color) :
    ∀ (l : List Color) (b : Nat),
    indexed_flat_map (fun i x => (g i x).to_array) l b
      = (indexed_map g l b).flatMap Color.to_array := by
  intro l
  induction l with
  | nil => intro b; rfl
  | cons x xs ih =>
    intro b
    simp only [indexed_flat_map, indexed_map, List.flatMap_cons, ih (b + 1)]

theorem length_indexed_map (g : Nat → α → β) :
    ∀ (l : List α) (b : Nat), (indexed_map g l b).length = l.length := by
  intro l
  induction l with
  | nil => intro b; rfl
  | cons x xs ih => intro b; simp [indexed_map, ih (b + 1)]

theorem alpha_indexed_map (g : Nat → Color → Color) (hg : ∀ i x, (g i x).a = 255) :
    ∀ (l : List Color) (b : Nat) (p : Color), p ∈ indexed_map g l b → p.a = 255 := by
  intro l
  induction l with
  | nil => intro b p hp; simp [indexed_map] at hp
  | cons x xs ih =>
    intro b p hp
    simp only [indexed_map, List.mem_cons] at hp
    rcases hp with hp | hp
    · rw [hp]; exact hg b x
    · exact ih (b + 1) p hp

theorem indexed_map_congr (g : Nat → Color → Color)
    (hg : ∀ i x y, rgbEq x y → g i x = g i y) :
    ∀ (l₁ l₂ : List Color) (b : Nat), List.Forall₂ rgbEq l₁ l₂ →
    indexed_map g l₁ b = indexed_map g l₂ b := by
  intro l₁
  induction l₁ with
  | nil =>
    intro l₂ b h
    cases h
    rfl
  | cons x xs ih =>
    intro l₂ b h
    cases h with
    | cons hxy hrest =>
      simp only [indexed_map]
      rw [hg b _ _ hxy, ih _ (b + 1) hrest]

theorem bytesToColors_flatMap_to_array :
    ∀ l : List Color, (∀ p ∈ l, p.a = 255) →
    bytesToColors (l.flatMap Color.to_array) = l := by
  intro l
  induction l with
  | nil => intro _; rfl
  | cons x xs ih =>
    intro h
    have hx : x.a = 255 := h x (List.mem_cons_self x xs)
    have hxs : ∀ p ∈ xs, p.a = 255 := fun p hp => h p (List.mem_cons_of_mem x hp)
    obtain ⟨r, g, b, a⟩ := x
    simp only at hx
    subst hx
    rw [List.flatMap_cons]
    show bytesToColors (r :: g :: b :: 255 :: xs.flatMap Color.to_array) = _
    rw [bytesToColors, ih hxs]
    simp [Color.from_rgba_unmultiplied]

theorem length_bytesToColors :
    ∀ bs : List Nat, (bytesToColors bs).length = bs.length / 4
  | r :: g :: b :: a :: rest => by
    simp only [bytesToColors, List.length_cons, length_bytesToColors rest]
    omega
  | [] => rfl
  | [_] => by simp [bytesToColors]
  | [_, _] => by simp [bytesToColors]
  | [_, _, _] => by simp [bytesToColors]

theorem list_eq_of_getD (l₁ l₂ : List Color) (hlen : l₁.length = l₂.length)
    (h : ∀ j, j < l₁.length → l₁.getD j ⟨0, 0, 0, 0⟩ = l₂.getD j ⟨0, 0, 0, 0⟩) :
    l₁ = l₂ := by
  apply List.ext_getElem hlen
  intro j hj₁ hj₂
  have := h j hj₁
  rwa [List.getD_eq_getElem _ _ hj₁, List.getD_eq_getElem _ _ hj₂] at this

/-! ## Level tables (claim C6 and support) -/

namespace DitheringCommon

theorem length_generate_color_levels (k : Nat) :
    (generate_color_levels k).length = k := by
  simp [generate_color_levels]

theorem getD_generate_color_levels {k i : Nat} (h : i < k) :
    (generate_color_levels k).getD i 0 = (2 * (i * 255) + (k - 1)) / (2 * (k - 1)) := by
  have hlen : i < (generate_color_levels k).length := by
    rw [length_generate_color_levels]; exact h
  rw [List.getD_eq_getElem _ _ hlen]
  simp [generate_color_levels]

theorem levels_formula_step {k : Nat} (i : Nat) (hk : 2 ≤ k) (hk' : k ≤ 255) :
    (2 * (i * 255) + (k - 1)) / (2 * (k - 1))
      < (2 * ((i + 1) * 255) + (k - 1)) / (2 * (k - 1)) := by
  have hb1 : 1 ≤ k - 1 := by omega
  have hb254 : k - 1 ≤ 254 := by omega
  have h1 : (2 * (i * 255) + (k - 1) + 2 * (k - 1)) / (2 * (k - 1))
      = (2 * (i * 255) + (k - 1)) / (2 * (k - 1)) + 1 :=
    Nat.add_div_right _ (by omega)
  have h2 : (2 * (i * 255) + (k - 1) + 2 * (k - 1)) / (2 * (k - 1))
      ≤ (2 * ((i + 1) * 255) + (k - 1)) / (2 * (k - 1)) := by
    apply Nat.div_le_div_right
    have h3 : (i + 1) * 255 = i * 255 + 255 := by ring
    omega
  omega

theorem pairwise_generate_color_levels {k : Nat} (hk : 2 ≤ k) (hk' : k ≤ 255) :
    (generate_color_levels k).Pairwise (· < ·) := by
  unfold generate_color_levels
  rw [List.pairwise_map]
  have hmono : StrictMono (fun i => (2 * (i * 255) + (k - 1)) / (2 * (k - 1))) :=
    strictMono_nat_of_lt_succ (fun i => levels_formula_step i hk hk')
  exact (List.pairwise_lt_range k).imp (fun h => hmono h)

theorem levels_first {k : Nat} (hk : 2 ≤ k) :
    (generate_color_levels k).getD 0 0 = 0 := by
  rw [getD_generate_color_levels (by omega)]
  exact Nat.div_eq_of_lt (by omega)

theorem levels_last {k : Nat} (hk : 2 ≤ k) :
    (generate_color_levels k).getD (k - 1) 0 = 255 := by
  rw [getD_generate_color_levels (by omega)]
  have h1 : 2 * ((k - 1) * 255) + (k - 1) = (k - 1) * 511 := by
    cases k with
    | zero => omega
    | succ n => simp only [Nat.succ_sub_one]; ring
  have h2 : 2 * (k - 1) = (k - 1) * 2 := by ring
  rw [h1, h2, Nat.mul_div_mul_left _ _ (by omega)]

end DitheringCommon

/-- C6: for every `k` in `[2,255]`, `generate_color_levels k` has exactly
`k` entries, the `i`-th entry equals round(i·255/(k−1)) (round half up,
computed as `⌊(2·i·255 + (k−1)) / (2·(k−1))⌋`) for `i < k`, the sequence
is strictly increasing, its first element is 0, and its last element
is 255. -/
theorem C6_level_table_build {k : Nat} (hk : 2 ≤ k) (hk' : k ≤ 255) :
    (DitheringCommon.generate_color_levels k).length = k
    ∧ (∀ i, i < k → (DitheringCommon.generate_color_levels k).getD i 0
        = (2 * (i * 255) + (k - 1)) / (2 * (k - 1)))
    ∧ (DitheringCommon.generate_color_levels k).Pairwise (· < ·)
    ∧ (DitheringCommon.generate_color_levels k).getD 0 0 = 0
    ∧ (DitheringCommon.generate_color_levels k).getD (k - 1) 0 = 255 :=
  ⟨DitheringCommon.length_generate_color_levels k,
   fun _i hi => DitheringCommon.getD_generate_color_levels hi,
   DitheringCommon.pairwise_generate_color_levels hk hk',
   DitheringCommon.levels_first hk,
   DitheringCommon.levels_last hk⟩

/-! ## Error-diffusion loop invariants (support for C5 and C10) -/

theorem getD_set_self (l : List α) (i : Nat) (v d : α) (h : i < l.length) :
    (l.set i v).getD i d = v := by
  simp [List.getD_eq_getElem?_getD, List.getElem?_set_self, h]

theorem getD_set_other (l : List α) {i j : Nat} (v d : α) (h : i ≠ j) :
    (l.set i v).getD j d = l.getD j d := by
  simp [List.getD_eq_getElem?_getD, List.getElem?_set_ne h]

namespace ErrorDiffusionDitheringColorQuantizer

theorem alpha_get_color_with_err (c : Color) (w rd gd bd : Int) :
    (get_color_with_err c w rd gd bd).a = 255 := rfl

theorem get_color_with_err_rgb {c₁ c₂ : Color} (h : rgbEq c₁ c₂) (w rd gd bd : Int) :
    get_color_with_err c₁ w rd gd bd = get_color_with_err c₂ w rd gd bd := by
  obtain ⟨h1, h2, h3⟩ := h
  simp only [get_color_with_err, h1, h2, h3]

theorem length_add_error (buf : List Color) (row col width : Nat) (w rd gd bd : Int) :
    (add_error buf row col width w rd gd bd).length = buf.length := by
  simp only [add_error]
  split <;> simp

theorem add_error_getD_cases (buf : List Color) (row col width : Nat)
    (w rd gd bd : Int) (j : Nat) :
    (add_error buf row col width w rd gd bd).getD j ⟨0, 0, 0, 0⟩ = buf.getD j ⟨0, 0, 0, 0⟩
    ∨ ((add_error buf row col width w rd gd bd).getD j ⟨0, 0, 0, 0⟩).a = 255 := by
  simp only [add_error]
  split
  · by_cases hj : row * width + col = j
    · subst hj
      right
      rw [getD_set_self _ _ _ _ (by assumption)]
      exact alpha_get_color_with_err _ _ _ _ _
    · left
      exact getD_set_other _ _ _ hj
  · left; rfl

theorem add_error_alpha_mono (buf : List Color) (row col width : Nat)
    (w rd gd bd : Int) (j : Nat) (h : (buf.getD j ⟨0, 0, 0, 0⟩).a = 255) :
    ((add_error buf row col width w rd gd bd).getD j ⟨0, 0, 0, 0⟩).a = 255 := by
  rcases add_error_getD_cases buf row col width w rd gd bd j with hc | hc
  · rw [hc]; exact h
  · exact hc

theorem add_error_congr {buf₁ buf₂ : List Color} (hlen : buf₁.length = buf₂.length)
    (h : ∀ j, rgbEq (buf₁.getD j ⟨0, 0, 0, 0⟩) (buf₂.getD j ⟨0, 0, 0, 0⟩))
    (row col width : Nat) (w rd gd bd : Int) :
    ∀ j, rgbEq ((add_error buf₁ row col width w rd gd bd).getD j ⟨0, 0, 0, 0⟩)
      ((add_error buf₂ row col width w rd gd bd).getD j ⟨0, 0, 0, 0⟩) := by
  intro j
  simp only [add_error]
  rw [← hlen]
  split
  · by_cases hj : row * width + col = j
    · subst hj
      rw [getD_set_self _ _ _ _ (by assumption),
        getD_set_self _ _ _ _ (by rw [← hlen]; assumption)]
      rw [get_color_with_err_rgb (h _) w rd gd bd]
      exact ⟨rfl, rfl, rfl⟩
    · rw [getD_set_other _ _ _ hj, getD_set_other _ _ _ hj]
      exact h j
  · exact h j

theorem length_diffusion_step (width : Nat) (rl gl bl : List Nat)
    (buf : List Color) (i : Nat) :
    (diffusion_step width rl gl bl buf i).length = buf.length := by
  simp only [diffusion_step]
  simp only [length_add_error, apply_ite (List.length), List.length_set, ite_self]

theorem set_getD_alpha (buf : List Color) (i j : Nat) (r g b : Nat)
    (h : (buf.getD j ⟨0, 0, 0, 0⟩).a = 255 ∨ (i = j ∧ i < buf.length)) :
    ((buf.set i (Color.from_rgb r g b)).getD j ⟨0, 0, 0, 0⟩).a = 255 := by
  by_cases hj : i = j
  · subst hj
    by_cases hi : i < buf.length
    · rw [getD_set_self _ _ _ _ hi]
      rfl
    · rw [List.set_eq_of_length_le (by omega)]
      rcases h with h | h
      · exact h
      · omega
  · rw [getD_set_other _ _ _ hj]
    rcases h with h | h
    · exact h
    · exact absurd h.1 hj

theorem diffusion_step_alpha (width : Nat) (rl gl bl : List Nat)
    (buf : List Color) (i : Nat) (j : Nat)
    (h : (buf.getD j ⟨0, 0, 0, 0⟩).a = 255 ∨ (i = j ∧ i < buf.length)) :
    ((diffusion_step width rl gl bl buf i).getD j ⟨0, 0, 0, 0⟩).a = 255 := by
  simp only [diffusion_step]
  apply add_error_alpha_mono
  apply add_error_alpha_mono
  split
  · apply add_error_alpha_mono
    apply add_error_alpha_mono
    exact set_getD_alpha buf i j _ _ _ h
  · apply add_error_alpha_mono
    exact set_getD_alpha buf i j _ _ _ h

theorem set_congr_rgb {buf₁ buf₂ : List Color} (hlen : buf₁.length = buf₂.length)
    (h : ∀ j, rgbEq (buf₁.getD j ⟨0, 0, 0, 0⟩) (buf₂.getD j ⟨0, 0, 0, 0⟩))
    (i : Nat) (v : Color) :
    ∀ j, rgbEq ((buf₁.set i v).getD j ⟨0, 0, 0, 0⟩) ((buf₂.set i v).getD j ⟨0, 0, 0, 0⟩) := by
  intro j
  by_cases hj : i = j
  · subst hj
    by_cases hi : i < buf₁.length
    · rw [getD_set_self _ _ _ _ hi, getD_set_self _ _ _ _ (by omega)]
      exact ⟨rfl, rfl, rfl⟩
    · rw [List.set_eq_of_length_le (by omega), List.set_eq_of_length_le (by omega)]
      exact h i
  · rw [getD_set_other _ _ _ hj, getD_set_other _ _ _ hj]
    exact h j

theorem diffusion_step_congr {buf₁ buf₂ : List Color} (hlen : buf₁.length = buf₂.length)
    (h : ∀ j, rgbEq (buf₁.getD j ⟨0, 0, 0, 0⟩) (buf₂.getD j ⟨0, 0, 0, 0⟩))
    (width : Nat) (rl gl bl : List Nat) (i : Nat) :
    ∀ j, rgbEq ((diffusion_step width rl gl bl buf₁ i).getD j ⟨0, 0, 0, 0⟩)
      ((diffusion_step width rl gl bl buf₂ i).getD j ⟨0, 0, 0, 0⟩) := by
  obtain ⟨h1, h2, h3⟩ := h i
  intro j
  simp only [diffusion_step, h1, h2, h3]
  refine add_error_congr ?_ ?_ _ _ _ _ _ _ _ j
  · simp only [length_add_error, apply_ite (List.length), List.length_set, ite_self, hlen]
  intro j2
  refine add_error_congr ?_ ?_ _ _ _ _ _ _ _ j2
  · simp only [length_add_error, apply_ite (List.length), List.length_set, ite_self, hlen]
  intro j3
  by_cases hcol : 0 < i - i / width * width
  · rw [if_pos hcol, if_pos hcol]
    refine add_error_congr ?_ ?_ _ _ _ _ _ _ _ j3
    · simp only [length_add_error, List.length_set, hlen]
    intro j4
    refine add_error_congr ?_ ?_ _ _ _ _ _ _ _ j4
    · simp only [List.length_set, hlen]
    exact set_congr_rgb hlen h i _
  · rw [if_neg hcol, if_neg hcol]
    refine add_error_congr ?_ ?_ _ _ _ _ _ _ _ j3
    · simp only [List.length_set, hlen]
    exact set_congr_rgb hlen h i _

theorem length_diffusion_loop (width : Nat) (rl gl bl : List Nat) :
    ∀ (fuel : Nat) (buf : List Color) (i : Nat),
    (diffusion_loop width rl gl bl fuel buf i).length = buf.length
  | 0, _buf, _i => rfl
  | fuel + 1, buf, i => by
    simp only [diffusion_loop]
    rw [length_diffusion_loop width rl gl bl fuel _ (i + 1), length_diffusion_step]

theorem diffusion_loop_alpha (width : Nat) (rl gl bl : List Nat) :
    ∀ (fuel : Nat) (buf : List Color) (i : Nat),
    (∀ j, j < i → j < buf.length → (buf.getD j ⟨0, 0, 0, 0⟩).a = 255) →
    ∀ j, j < buf.length → j < i + fuel →
      ((diffusion_loop width rl gl bl fuel buf i).getD j ⟨0, 0, 0, 0⟩).a = 255
  | 0, _buf, i, h, j, hj, hjf => h j (by omega) hj
  | fuel + 1, buf, i, h, j, hj, hjf => by
    simp only [diffusion_loop]
    apply diffusion_loop_alpha width rl gl bl fuel _ (i + 1)
    · intro j' hj' hj'len
      rw [length_diffusion_step] at hj'len
      apply diffusion_step_alpha
      rcases Nat.lt_or_ge j' i with hcase | hcase
      · exact Or.inl (h j' hcase hj'len)
      · have : j' = i := by omega
        subst this
        exact Or.inr ⟨rfl, hj'len⟩
    · rw [length_diffusion_step]
      exact hj
    · omega

theorem diffusion_loop_congr (width : Nat) (rl gl bl : List Nat) :
    ∀ (fuel : Nat) (buf₁ buf₂ : List Color) (i : Nat), buf₁.length = buf₂.length →
    (∀ j, rgbEq (buf₁.getD j ⟨0, 0, 0, 0⟩) (buf₂.getD j ⟨0, 0, 0, 0⟩)) →
    ∀ j, rgbEq ((diffusion_loop width rl gl bl fuel buf₁ i).getD j ⟨0, 0, 0, 0⟩)
      ((diffusion_loop width rl gl bl fuel buf₂ i).getD j ⟨0, 0, 0, 0⟩)
  | 0, _buf₁, _buf₂, _i, _hlen, h => h
  | fuel + 1, buf₁, buf₂, i, hlen, h => by
    simp only [diffusion_loop]
    apply diffusion_loop_congr width rl gl bl fuel _ _ (i + 1)
    · rw [length_diffusion_step, length_diffusion_step, hlen]
    · exact diffusion_step_congr hlen h width rl gl bl i

end ErrorDiffusionDitheringColorQuantizer

theorem forall₂_rgbEq_getD {l₁ l₂ : List Color} (h : List.Forall₂ rgbEq l₁ l₂) :
    ∀ j, rgbEq (l₁.getD j ⟨0, 0, 0, 0⟩) (l₂.getD j ⟨0, 0, 0, 0⟩) := by
  induction h with
  | nil => intro j; exact ⟨rfl, rfl, rfl⟩
  | cons hxy _hrest ih =>
    intro j
    cases j with
    | zero => exact hxy
    | succ n => exact ih n

theorem alpha_all_of_getD {l : List Color}
    (h : ∀ j, j < l.length → (l.getD j ⟨0, 0, 0, 0⟩).a = 255) :
    ∀ p ∈ l, p.a = 255 := by
  intro p hp
  rcases List.mem_iff_getElem.mp hp with ⟨j, hj, hjp⟩
  have hx := h j hj
  rwa [List.getD_eq_getElem _ _ hj, hjp] at hx

theorem rgbEq_refl (c : Color) : rgbEq c c := ⟨rfl, rfl, rfl⟩

theorem color_eq_of_rgb_alpha {c₁ c₂ : Color} (h : rgbEq c₁ c₂)
    (h₁ : c₁.a = 255) (h₂ : c₂.a = 255) : c₁ = c₂ := by
  obtain ⟨hr, hg, hb⟩ := h
  cases c₁
  cases c₂
  simp_all

theorem image_eq {i₁ i₂ : Image} (hw : i₁.width = i₂.width)
    (hh : i₁.height = i₂.height) (hp : i₁.pixels = i₂.pixels) : i₁ = i₂ := by
  cases i₁
  cases i₂
  simp_all

theorem map_rgb_congr (f : Color → Color) (hf : ∀ x y, rgbEq x y → f x = f y) :
    ∀ {l₁ l₂ : List Color}, List.Forall₂ rgbEq l₁ l₂ → l₁.map f = l₂.map f := by
  intro l₁ l₂ h
  induction h with
  | nil => rfl
  | cons hxy _hrest ih => simp only [List.map_cons, hf _ _ hxy, ih]

theorem flatMap_to_array_map (h : Color → Color) (l : List Color) :
    l.flatMap (fun x => (h x).to_array) = (l.map h).flatMap Color.to_array :=
  (List.flatMap_map _ _ _).symm

/-! ## Pixel-list forms of the quantizer pipelines -/

theorem average_pixels (params : DitheringParameters) (img : Image) :
    (AverageDitheringColorQuantizer.generate_output_image params img).pixels
      = img.pixels.map (fun pixel =>
          Color.from_rgb
            (DitheringCommon.find_closest_level pixel.r
              (DitheringCommon.generate_color_levels params.k_r))
            (DitheringCommon.find_closest_level pixel.g
              (DitheringCommon.generate_color_levels params.k_g))
            (DitheringCommon.find_closest_level pixel.b
              (DitheringCommon.generate_color_levels params.k_b))) := by
  simp only [AverageDitheringColorQuantizer.generate_output_image,
    ColorImage.from_rgba_unmultiplied]
  rw [flatMap_list_chunks 256 (by norm_num)]
  rw [flatMap_to_array_map (fun pixel =>
    Color.from_rgb
      (DitheringCommon.find_closest_level pixel.r
        (DitheringCommon.generate_color_levels params.k_r))
      (DitheringCommon.find_closest_level pixel.g
        (DitheringCommon.generate_color_levels params.k_g))
      (DitheringCommon.find_closest_level pixel.b
        (DitheringCommon.generate_color_levels params.k_b)))]
  apply bytesToColors_flatMap_to_array
  intro p hp
  rcases List.mem_map.mp hp with ⟨x, _, hx⟩
  rw [← hx]
  rfl

theorem ordered_pixels
    (gc : Nat → Nat → List Nat → List (List Nat) → Nat → Nat → Nat → Nat)
    (params : DitheringParameters) (img : Image) :
    (OrderedDitheringCommon.ordered_dithering_output_image gc params img).pixels
      = indexed_map (fun id pixel =>
          Color.from_rgb
            (gc 0 pixel.r (DitheringCommon.generate_color_levels params.k_r)
              (OrderedDitheringCommon.generate_matrix (OrderedDitheringCommon.find_n params.k_r))
              (id / img.width) (id - id / img.width * img.width)
              (OrderedDitheringCommon.find_n params.k_r))
            (gc 1 pixel.g (DitheringCommon.generate_color_levels params.k_g)
              (OrderedDitheringCommon.generate_matrix (OrderedDitheringCommon.find_n params.k_g))
              (id / img.width) (id - id / img.width * img.width)
              (OrderedDitheringCommon.find_n params.k_g))
            (gc 2 pixel.b (DitheringCommon.generate_color_levels params.k_b)
              (OrderedDitheringCommon.generate_matrix (OrderedDitheringCommon.find_n params.k_b))
              (id / img.width) (id - id / img.width * img.width)
              (OrderedDitheringCommon.find_n params.k_b)))
          img.pixels 0 := by
  simp only [OrderedDitheringCommon.ordered_dithering_output_image,
    ColorImage.from_rgba_unmultiplied]
  rw [chunked_flatMap_enum 512 (by norm_num) (fun id pixel =>
    (Color.from_rgb
      (gc 0 pixel.r (DitheringCommon.generate_color_levels params.k_r)
        (OrderedDitheringCommon.generate_matrix (OrderedDitheringCommon.find_n params.k_r))
        (id / img.width) (id - id / img.width * img.width)
        (OrderedDitheringCommon.find_n params.k_r))
      (gc 1 pixel.g (DitheringCommon.generate_color_levels params.k_g)
        (OrderedDitheringCommon.generate_matrix (OrderedDitheringCommon.find_n params.k_g))
        (id / img.width) (id - id / img.width * img.width)
        (OrderedDitheringCommon.find_n params.k_g))
      (gc 2 pixel.b (DitheringCommon.generate_color_levels params.k_b)
        (OrderedDitheringCommon.generate_matrix (OrderedDitheringCommon.find_n params.k_b))
        (id / img.width) (id - id / img.width * img.width)
        (OrderedDitheringCommon.find_n params.k_b))).to_array) img.pixels]
  rw [indexed_flat_map_to_array]
  apply bytesToColors_flatMap_to_array
  intro p hp
  exact alpha_indexed_map _ (fun _i _x => rfl) _ _ p hp

theorem ed_pixels (params : DitheringParameters) (img : Image) :
    (ErrorDiffusionDitheringColorQuantizer.generate_output_image params img).pixels
      = ErrorDiffusionDitheringColorQuantizer.diffusion_loop img.width
          (DitheringCommon.generate_color_levels params.k_r)
          (DitheringCommon.generate_color_levels params.k_g)
          (DitheringCommon.generate_color_levels params.k_b)
          img.pixels.length img.pixels 0 := by
  simp only [ErrorDiffusionDitheringColorQuantizer.generate_output_image,
    ColorImage.from_rgba_unmultiplied]
  apply bytesToColors_flatMap_to_array
  apply alpha_all_of_getD
  intro j hj
  rw [ErrorDiffusionDitheringColorQuantizer.length_diffusion_loop] at hj
  exact ErrorDiffusionDitheringColorQuantizer.diffusion_loop_alpha img.width _ _ _
    img.pixels.length img.pixels 0
    (fun j' hj' _ => absurd hj' (Nat.not_lt_zero j')) j hj (by omega)

/-! ## Opaque output and alpha-independence (claim C10) -/

/-- C10: for `AverageDithering`, `ErrorDiffusionDithering`, and both
ordered-dithering quantizers (the random one with its entropy held
fixed), the output is (i) identical for any two input images that agree
on the RGB channels of every pixel — input alpha never influences the
output — and (ii) every output pixel has alpha 255 (the quantizers emit
pixels only through `Color32::from_rgb`). -/
theorem C10_output_opaque_alpha (params : DitheringParameters)
    (e : OrderedDitheringCommon.Entropy) (img₁ img₂ : Image)
    (hw : img₁.width = img₂.width) (hh : img₁.height = img₂.height)
    (hpx : List.Forall₂ rgbEq img₁.pixels img₂.pixels) :
    (AverageDitheringColorQuantizer.generate_output_image params img₁
        = AverageDitheringColorQuantizer.generate_output_image params img₂
      ∧ ∀ p ∈ (AverageDitheringColorQuantizer.generate_output_image params img₁).pixels,
        p.a = 255)
    ∧ (ErrorDiffusionDitheringColorQuantizer.generate_output_image params img₁
        = ErrorDiffusionDitheringColorQuantizer.generate_output_image params img₂
      ∧ ∀ p ∈ (ErrorDiffusionDitheringColorQuantizer.generate_output_image params img₁).pixels,
        p.a = 255)
    ∧ (OrderedDitheringRelativeColorQuantizer.generate_output_image params img₁
        = OrderedDitheringRelativeColorQuantizer.generate_output_image params img₂
      ∧ ∀ p ∈ (OrderedDitheringRelativeColorQuantizer.generate_output_image params img₁).pixels,
        p.a = 255)
    ∧ (OrderedDitheringRandomColorQuantizer.generate_output_image e params img₁
        = OrderedDitheringRandomColorQuantizer.generate_output_image e params img₂
      ∧ ∀ p ∈ (OrderedDitheringRandomColorQuantizer.generate_output_image e params img₁).pixels,
        p.a = 255) := by
  have hlen : img₁.pixels.length = img₂.pixels.length := hpx.length_eq
  have hrgb : ∀ x y, rgbEq x y →
      (fun pixel => Color.from_rgb
        (DitheringCommon.find_closest_level pixel.r
          (DitheringCommon.generate_color_levels params.k_r))
        (DitheringCommon.find_closest_level pixel.g
          (DitheringCommon.generate_color_levels params.k_g))
        (DitheringCommon.find_closest_level pixel.b
          (DitheringCommon.generate_color_levels params.k_b))) x
      = (fun pixel => Color.from_rgb
        (DitheringCommon.find_closest_level pixel.r
          (DitheringCommon.generate_color_levels params.k_r))
        (DitheringCommon.find_closest_level pixel.g
          (DitheringCommon.generate_color_levels params.k_g))
        (DitheringCommon.find_closest_level pixel.b
          (DitheringCommon.generate_color_levels params.k_b))) y := by
    intro x y hxy
    obtain ⟨h1, h2, h3⟩ := hxy
    simp only [h1, h2, h3]
  refine ⟨⟨image_eq hw hh ?_, ?_⟩, ⟨image_eq hw hh ?_, ?_⟩,
    ⟨image_eq hw hh ?_, ?_⟩, ⟨image_eq hw hh ?_, ?_⟩⟩
  · rw [average_pixels, average_pixels]
    exact map_rgb_congr _ hrgb hpx
  · rw [average_pixels]
    intro p hp
    rcases List.mem_map.mp hp with ⟨x, _, hx⟩
    rw [← hx]
    rfl
  · rw [ed_pixels, ed_pixels, hw, hlen]
    apply list_eq_of_getD
    · rw [ErrorDiffusionDitheringColorQuantizer.length_diffusion_loop,
        ErrorDiffusionDitheringColorQuantizer.length_diffusion_loop, hlen]
    · intro j hj
      rw [ErrorDiffusionDitheringColorQuantizer.length_diffusion_loop] at hj
      apply color_eq_of_rgb_alpha
      · exact ErrorDiffusionDitheringColorQuantizer.diffusion_loop_congr img₂.width _ _ _
          img₂.pixels.length img₁.pixels img₂.pixels 0 hlen (forall₂_rgbEq_getD hpx) j
      · exact ErrorDiffusionDitheringColorQuantizer.diffusion_loop_alpha img₂.width _ _ _
          img₂.pixels.length img₁.pixels 0
          (fun j' hj' _ => absurd hj' (Nat.not_lt_zero j')) j hj (by omega)
      · exact ErrorDiffusionDitheringColorQuantizer.diffusion_loop_alpha img₂.width _ _ _
          img₂.pixels.length img₂.pixels 0
          (fun j' hj' _ => absurd hj' (Nat.not_lt_zero j')) j (by omega) (by omega)
  · rw [ed_pixels]
    apply alpha_all_of_getD
    intro j hj
    rw [ErrorDiffusionDitheringColorQuantizer.length_diffusion_loop] at hj
    exact ErrorDiffusionDitheringColorQuantizer.diffusion_loop_alpha img₁.width _ _ _
      img₁.pixels.length img₁.pixels 0
      (fun j' hj' _ => absurd hj' (Nat.not_lt_zero j')) j hj (by omega)
  · simp only [OrderedDitheringRelativeColorQuantizer.generate_output_image]
    rw [ordered_pixels, ordered_pixels, hw]
    apply indexed_map_congr
    · intro i x y hxy
      obtain ⟨h1, h2, h3⟩ := hxy
      simp only [h1, h2, h3]
    · exact hpx
  · simp only [OrderedDitheringRelativeColorQuantizer.generate_output_image]
    rw [ordered_pixels]
    intro p hp
    exact alpha_indexed_map _ (fun _i _x => rfl) _ _ p hp
  · simp only [OrderedDitheringRandomColorQuantizer.generate_output_image]
    rw [ordered_pixels, ordered_pixels, hw]
    apply indexed_map_congr
    · intro i x y hxy
      obtain ⟨h1, h2, h3⟩ := hxy
      simp only [h1, h2, h3]
    · exact hpx
  · simp only [OrderedDitheringRandomColorQuantizer.generate_output_image]
    rw [ordered_pixels]
    intro p hp
    exact alpha_indexed_map _ (fun _i _x => rfl) _ _ p hp

/-- C10 witness: a 1×1 image whose single pixel has alpha 8 versus the
same RGB with alpha 255 — `AverageDithering` gives identical, fully
opaque outputs (projection of the claim theorem; the other three
quantizers are instantiated by the same application). -/
theorem C10_output_opaque_alpha_witness :
    AverageDitheringColorQuantizer.generate_output_image ⟨2, 2, 2⟩ ⟨1, 1, [⟨5, 6, 7, 8⟩]⟩
      = AverageDitheringColorQuantizer.generate_output_image ⟨2, 2, 2⟩ ⟨1, 1, [⟨5, 6, 7, 255⟩]⟩
    ∧ ∀ p ∈ (AverageDitheringColorQuantizer.generate_output_image ⟨2, 2, 2⟩
        ⟨1, 1, [⟨5, 6, 7, 8⟩]⟩).pixels, p.a = 255 := by
  have h := C10_output_opaque_alpha ⟨2, 2, 2⟩ (fun _ _ => (0, 0))
    ⟨1, 1, [⟨5, 6, 7, 8⟩]⟩ ⟨1, 1, [⟨5, 6, 7, 255⟩]⟩ rfl rfl
    (.cons ⟨rfl, rfl, rfl⟩ .nil)
  exact h.1

/-! ## Popularity-quantizer support lemmas (claim C5) -/

namespace PopularityAlgorithmColorQuantizer

theorem length_insert_desc (x : Color × Nat) :
    ∀ l : List (Color × Nat), (insert_desc x l).length = l.length + 1
  | [] => rfl
  | y :: ys => by
    simp only [insert_desc]
    split
    · rfl
    · simp [length_insert_desc x ys]

theorem length_sort_desc (l : List (Color × Nat)) :
    (sort_desc_by_count l).length = l.length := by
  induction l with
  | nil => rfl
  | cons x xs ih =>
    simp only [sort_desc_by_count, List.foldr_cons] at ih ⊢
    rw [length_insert_desc, ih, List.length_cons]

theorem length_find_most_popular (iterOrder : List Color) (img : Image) (k : Nat) :
    (find_most_popular_k_colors iterOrder img k).length = min k iterOrder.length := by
  simp [find_most_popular_k_colors, length_sort_desc]

theorem find_closest_color_isSome (pixel : Color) :
    ∀ colors : List Color, colors ≠ [] → ∃ c, find_closest_color pixel colors = some c
  | [], h => absurd rfl h
  | _c :: _cs, _ => ⟨_, rfl⟩

theorem map_closest_some {colors : List Color} (hc : colors ≠ []) :
    ∀ pixels : List Color,
    ∃ bs, map_closest colors pixels = some bs ∧ bs.length = 4 * pixels.length
  | [] => ⟨[], rfl, rfl⟩
  | p :: ps => by
    rcases find_closest_color_isSome p colors hc with ⟨c, hcc⟩
    rcases map_closest_some hc ps with ⟨bs, hbs, hlen⟩
    refine ⟨c.to_array ++ bs, ?_, ?_⟩
    · simp [map_closest, hcc, hbs]
    · simp only [List.length_append, Color.to_array, List.length_cons, List.length_nil,
        hlen, List.length_cons]
      omega

end PopularityAlgorithmColorQuantizer

/-- C5: each of the five quantizers returns a new image with the same
width and height as the input, whose pixel count is again
width×height, for every well-formed input image and spec-valid
parameters (`k ∈ [2,255]` per dithering channel, popularity `k ≥ 2`,
and the HashMap holding exactly the distinct pixel colors).  Input
immutability is definitional in this embedding: every
`generate_output_image` is a pure function of the input image and
builds a fresh `ColorImage`. -/
theorem C5_output_dimensions (params : DitheringParameters)
    (pparams : PopularityParameters) (e : OrderedDitheringCommon.Entropy)
    (iterOrder : List Color) (img : Image)
    (hwf : img.pixels.length = img.width * img.height)
    (_hkr : 2 ≤ params.k_r) (_hkr' : params.k_r ≤ 255)
    (_hkg : 2 ≤ params.k_g) (_hkg' : params.k_g ≤ 255)
    (_hkb : 2 ≤ params.k_b) (_hkb' : params.k_b ≤ 255)
    (hpk : 2 ≤ pparams.k) (hio : iterOrder.Perm img.pixels.dedup) :
    ((AverageDitheringColorQuantizer.generate_output_image params img).width = img.width
      ∧ (AverageDitheringColorQuantizer.generate_output_image params img).height = img.height
      ∧ (AverageDitheringColorQuantizer.generate_output_image params img).pixels.length
          = img.width * img.height)
    ∧ ((ErrorDiffusionDitheringColorQuantizer.generate_output_image params img).width = img.width
      ∧ (ErrorDiffusionDitheringColorQuantizer.generate_output_image params img).height = img.height
      ∧ (ErrorDiffusionDitheringColorQuantizer.generate_output_image params img).pixels.length
          = img.width * img.height)
    ∧ ((OrderedDitheringRelativeColorQuantizer.generate_output_image params img).width = img.width
      ∧ (OrderedDitheringRelativeColorQuantizer.generate_output_image params img).height = img.height
      ∧ (OrderedDitheringRelativeColorQuantizer.generate_output_image params img).pixels.length
          = img.width * img.height)
    ∧ ((OrderedDitheringRandomColorQuantizer.generate_output_image e params img).width = img.width
      ∧ (OrderedDitheringRandomColorQuantizer.generate_output_image e params img).height = img.height
      ∧ (OrderedDitheringRandomColorQuantizer.generate_output_image e params img).pixels.length
          = img.width * img.height)
    ∧ (∃ out, PopularityAlgorithmColorQuantizer.generate_output_image iterOrder pparams img
          = some out
        ∧ out.width = img.width ∧ out.height = img.height
        ∧ out.pixels.length = img.width * img.height) := by
  refine ⟨⟨rfl, rfl, ?_⟩, ⟨rfl, rfl, ?_⟩, ⟨rfl, rfl, ?_⟩, ⟨rfl, rfl, ?_⟩, ?_⟩
  · rw [average_pixels, List.length_map, hwf]
  · rw [ed_pixels, ErrorDiffusionDitheringColorQuantizer.length_diffusion_loop, hwf]
  · simp only [OrderedDitheringRelativeColorQuantizer.generate_output_image]
    rw [ordered_pixels, length_indexed_map, hwf]
  · simp only [OrderedDitheringRandomColorQuantizer.generate_output_image]
    rw [ordered_pixels, length_indexed_map, hwf]
  · have hex : ∃ bs,
        PopularityAlgorithmColorQuantizer.map_closest
          (PopularityAlgorithmColorQuantizer.find_most_popular_k_colors iterOrder img
            pparams.k) img.pixels = some bs
        ∧ bs.length = 4 * img.pixels.length := by
      rcases eq_or_ne img.pixels [] with hnil | hnil
      · rw [hnil]
        exact ⟨[], rfl, rfl⟩
      · apply PopularityAlgorithmColorQuantizer.map_closest_some
        have hdedup : img.pixels.dedup ≠ [] := by
          rw [ne_eq, List.dedup_eq_nil]
          exact hnil
        have hiolen : 0 < iterOrder.length := by
          rw [hio.length_eq]
          exact List.length_pos.mpr hdedup
        have hlen := PopularityAlgorithmColorQuantizer.length_find_most_popular
          iterOrder img pparams.k
        intro hempty
        rw [hempty] at hlen
        simp only [List.length_nil] at hlen
        omega
    rcases hex with ⟨bs, hbs, hblen⟩
    refine ⟨ColorImage.from_rgba_unmultiplied (img.width, img.height) bs, ?_, rfl, rfl, ?_⟩
    · simp [PopularityAlgorithmColorQuantizer.generate_output_image, hbs]
    · simp only [ColorImage.from_rgba_unmultiplied, length_bytesToColors, hblen, hwf]
      omega

/-- C5 witness: a well-formed 1×1 image with spec-valid parameters —
all five quantizers preserve the dimensions (the popularity conjunct is
shown; the application instantiates all five). -/
theorem C5_output_dimensions_witness :
    ∃ out, PopularityAlgorithmColorQuantizer.generate_output_image [⟨9, 9, 9, 255⟩] ⟨2⟩
        ⟨1, 1, [⟨9, 9, 9, 255⟩]⟩ = some out
      ∧ out.width = (⟨1, 1, [⟨9, 9, 9, 255⟩]⟩ : Image).width
      ∧ out.height = (⟨1, 1, [⟨9, 9, 9, 255⟩]⟩ : Image).height
      ∧ out.pixels.length
          = (⟨1, 1, [⟨9, 9, 9, 255⟩]⟩ : Image).width
            * (⟨1, 1, [⟨9, 9, 9, 255⟩]⟩ : Image).height := by
  have h := C5_output_dimensions ⟨2, 2, 2⟩ ⟨2⟩ (fun _ _ => (0, 0)) [⟨9, 9, 9, 255⟩]
    ⟨1, 1, [⟨9, 9, 9, 255⟩]⟩ (by decide) (by decide) (by decide) (by decide) (by decide)
    (by decide) (by decide) (by decide)
    (by rw [show (⟨1, 1, [⟨9, 9, 9, 255⟩]⟩ : Image).pixels.dedup = [⟨9, 9, 9, 255⟩] from by decide])
  exact h.2.2.2.2

/-! ## The LRU result cache (claim C2) -/

/-- C2: `ProcessedImagesCache::get` — if the key is present, the stored
image is returned with zero quantizer invocations and the entry is moved
to the most-recently-used head; if absent, the quantizer selected by
`key.algorithm` (`create_new_image`) is invoked exactly once, its result
inserted at the head with the least-recently-used tail entry dropped
when the capacity is exceeded, and returned.  Consequently (third
conjunct) a second `get` with the same key and source image is always a
hit: it returns the same image with zero further invocations, so two
consecutive `get` calls invoke the quantizer at most once. -/
theorem C2_cache_get (e : OrderedDitheringCommon.Entropy) (iterOrder : List Color)
    (cache : ProcessedImagesCache) (key : AlgorithmCacheKey) (img : Image)
    (hcap : 1 ≤ cache.capacity) :
    (∀ entry, cache.entries.find? (fun p => p.1 == key) = some entry →
      ProcessedImagesCache.get e iterOrder cache key img
        = some (entry.2,
            ⟨cache.capacity, (key, entry.2) :: cache.entries.eraseP (fun p => p.1 == key)⟩, 0))
    ∧ (∀ v, cache.entries.find? (fun p => p.1 == key) = none →
        create_new_image e iterOrder key img = some v →
        ProcessedImagesCache.get e iterOrder cache key img
          = some (v, ⟨cache.capacity, ((key, v) :: cache.entries).take cache.capacity⟩, 1))
    ∧ (∀ r₁ s₁ n₁, ProcessedImagesCache.get e iterOrder cache key img = some (r₁, s₁, n₁) →
        ProcessedImagesCache.get e iterOrder s₁ key img
          = some (r₁, ⟨s₁.capacity, (key, r₁) :: s₁.entries.eraseP (fun p => p.1 == key)⟩, 0)) := by
  refine ⟨?_, ?_, ?_⟩
  · intro entry hf
    simp only [ProcessedImagesCache.get, hf]
  · intro v hf hv
    simp only [ProcessedImagesCache.get, hf, hv]
  · intro r₁ s₁ n₁ hget
    simp only [ProcessedImagesCache.get] at hget
    have hhead : ∃ rest, s₁.entries = (key, r₁) :: rest := by
      cases hf : cache.entries.find? (fun p => p.1 == key) with
      | some entry =>
        rw [hf] at hget
        simp only [Option.some.injEq, Prod.mk.injEq] at hget
        obtain ⟨h1, h2, _h3⟩ := hget
        refine ⟨cache.entries.eraseP (fun p => p.1 == key), ?_⟩
        rw [← h2, ← h1]
      | none =>
        rw [hf] at hget
        cases hc : create_new_image e iterOrder key img with
        | none =>
          rw [hc] at hget
          simp at hget
        | some v =>
          rw [hc] at hget
          simp only [Option.some.injEq, Prod.mk.injEq] at hget
          obtain ⟨h1, h2, _h3⟩ := hget
          obtain ⟨m, hm⟩ : ∃ m, cache.capacity = m + 1 := ⟨cache.capacity - 1, by omega⟩
          refine ⟨cache.entries.take m, ?_⟩
          rw [← h2, ← h1, hm, List.take_succ_cons]
    rcases hhead with ⟨rest, hrest⟩
    have hfind : s₁.entries.find? (fun p => p.1 == key) = some (key, r₁) := by
      rw [hrest]
      simp [List.find?_cons_of_pos]
    simp only [ProcessedImagesCache.get, hfind]

/-- C2 witness: a capacity-1 cache already holding the key — `get` is a
hit, returns the stored image, and performs zero quantizer invocations
(the third conjunct applied with the first call's result computed by
`decide`). -/
theorem C2_cache_get_witness :
    ProcessedImagesCache.get (fun _ _ => (0, 0)) []
        ⟨1, [(⟨.AverageDithering, .Dithering ⟨2, 2, 2⟩⟩, ⟨1, 1, [⟨0, 0, 0, 255⟩]⟩)]⟩
        ⟨.AverageDithering, .Dithering ⟨2, 2, 2⟩⟩ ⟨1, 1, [⟨0, 0, 0, 255⟩]⟩
      = some (⟨1, 1, [⟨0, 0, 0, 255⟩]⟩,
          ⟨1, (⟨.AverageDithering, .Dithering ⟨2, 2, 2⟩⟩, ⟨1, 1, [⟨0, 0, 0, 255⟩]⟩)
            :: ([(⟨.AverageDithering, .Dithering ⟨2, 2, 2⟩⟩, ⟨1, 1, [⟨0, 0, 0, 255⟩]⟩)].eraseP
                (fun p => p.1 == (⟨.AverageDithering, .Dithering ⟨2, 2, 2⟩⟩ : AlgorithmCacheKey)))⟩,
          0) := by
  have h := C2_cache_get (fun _ _ => (0, 0)) []
    ⟨1, [(⟨.AverageDithering, .Dithering ⟨2, 2, 2⟩⟩, ⟨1, 1, [⟨0, 0, 0, 255⟩]⟩)]⟩
    ⟨.AverageDithering, .Dithering ⟨2, 2, 2⟩⟩ ⟨1, 1, [⟨0, 0, 0, 255⟩]⟩ (by decide)
  exact h.2.2 ⟨1, 1, [⟨0, 0, 0, 255⟩]⟩
    ⟨1, [(⟨.AverageDithering, .Dithering ⟨2, 2, 2⟩⟩, ⟨1, 1, [⟨0, 0, 0, 255⟩]⟩)]⟩ 0 (by decide)

/-! ## Nearest-level lookup (claim C7 and support) -/

namespace DitheringCommon

theorem pairwise_lt_getD {l : List Nat} (hs : l.Pairwise (· < ·))
    {i j : Nat} (hij : i < j) (hj : j < l.length) :
    l.getD i 0 < l.getD j 0 := by
  rw [List.getD_eq_getElem _ _ (by omega), List.getD_eq_getElem _ _ hj]
  exact List.pairwise_iff_getElem.mp hs i j (by omega) hj hij

theorem pairwise_le_getD {l : List Nat} (hs : l.Pairwise (· < ·))
    {i j : Nat} (hij : i ≤ j) (hj : j < l.length) :
    l.getD i 0 ≤ l.getD j 0 := by
  rcases Nat.lt_or_ge i j with h | h
  · exact Nat.le_of_lt (pairwise_lt_getD hs h hj)
  · have : i = j := by omega
    subst this; exact Nat.le_refl _

/-- Full functional specification of the embedded `slice::binary_search`
loop on a strictly sorted list, for any sufficient fuel: `Ok idx` finds
the target at `idx`; `Err idx` is a sound insertion point — everything
before it is smaller, everything from it on is larger. -/
theorem binary_search_go_spec (levels : List Nat) (target : Nat)
    (hs : levels.Pairwise (· < ·)) :
    ∀ (fuel lo hi : Nat), hi ≤ levels.length → hi - lo ≤ fuel → lo ≤ hi →
    (∀ i, i < lo → levels.getD i 0 < target) →
    (∀ i, hi ≤ i → i < levels.length → target < levels.getD i 0) →
    (match binary_search_go levels target fuel lo hi with
     | .ok idx => idx < levels.length ∧ levels.getD idx 0 = target
     | .error idx => (∀ i, i < idx → levels.getD i 0 < target)
         ∧ (∀ i, idx ≤ i → i < levels.length → target < levels.getD i 0)) := by
  intro fuel
  induction fuel with
  | zero =>
    intro lo hi hhi hfuel hlohi hbelow habove
    have : lo = hi := by omega
    subst this
    simp only [binary_search_go]
    exact ⟨hbelow, habove⟩
  | succ fuel ih =>
    intro lo hi hhi hfuel hlohi hbelow habove
    by_cases hlt : lo < hi
    · have hmid_lt : lo + (hi - lo) / 2 < hi := by
        have : (hi - lo) / 2 < hi - lo := Nat.div_lt_self (by omega) (by omega)
        omega
      have hmid_len : lo + (hi - lo) / 2 < levels.length := by omega
      by_cases hvlt : levels.getD (lo + (hi - lo) / 2) 0 < target
      · have hrec := ih (lo + (hi - lo) / 2 + 1) hi hhi (by omega) (by omega)
          (fun i hi' => by
            rcases Nat.lt_or_ge i lo with h | h
            · exact hbelow i h
            · calc levels.getD i 0 ≤ levels.getD (lo + (hi - lo) / 2) 0 :=
                    pairwise_le_getD hs (by omega) hmid_len
                _ < target := hvlt)
          habove
        simpa only [binary_search_go, if_pos hlt, if_pos hvlt] using hrec
      · by_cases htlt : target < levels.getD (lo + (hi - lo) / 2) 0
        · have hrec := ih lo (lo + (hi - lo) / 2) (by omega) (by omega) (by omega)
            hbelow
            (fun i hi' hi'' => by
              rcases Nat.lt_or_ge (lo + (hi - lo) / 2) i with h | h
              · calc target < levels.getD (lo + (hi - lo) / 2) 0 := htlt
                  _ < levels.getD i 0 := pairwise_lt_getD hs h hi''
              · have : i = lo + (hi - lo) / 2 := by omega
                subst this; exact htlt)
          simpa only [binary_search_go, if_pos hlt, if_neg hvlt, if_pos htlt] using hrec
        · have heq : levels.getD (lo + (hi - lo) / 2) 0 = target := by omega
          simp only [binary_search_go, if_pos hlt, if_neg hvlt, if_neg htlt]
          exact ⟨hmid_len, heq⟩
    · have : lo = hi := by omega
      subst this
      simp only [binary_search_go, if_neg hlt]
      exact ⟨hbelow, habove⟩

end DitheringCommon

/-- C7: on every non-empty strictly increasing level table,
`find_closest_level` returns an element of the table to which no other
entry is strictly closer; a value exactly equidistant between two
adjacent levels gets the lower level; values `≤` the first level return
the first level, and values `≥` the last level return the last level. -/
theorem C7_find_closest_level_nearest (levels : List Nat) (value : Nat)
    (hne : levels ≠ []) (hs : levels.Pairwise (· < ·)) :
    DitheringCommon.find_closest_level value levels ∈ levels
    ∧ (∀ l ∈ levels,
        ((value : Int) - (DitheringCommon.find_closest_level value levels : Int)).natAbs
          ≤ ((value : Int) - (l : Int)).natAbs)
    ∧ (value ≤ levels.getD 0 0 →
        DitheringCommon.find_closest_level value levels = levels.getD 0 0)
    ∧ (levels.getD (levels.length - 1) 0 ≤ value →
        DitheringCommon.find_closest_level value levels
          = levels.getD (levels.length - 1) 0)
    ∧ (∀ i, i + 1 < levels.length →
        (value : Int) - (levels.getD i 0 : Int)
          = (levels.getD (i + 1) 0 : Int) - (value : Int) →
        DitheringCommon.find_closest_level value levels = levels.getD i 0) := by
  have hlen : 0 < levels.length := List.length_pos.mpr hne
  have hmem : ∀ j, j < levels.length → levels.getD j 0 ∈ levels := fun j hj => by
    rw [List.getD_eq_getElem _ _ hj]; exact List.getElem_mem hj
  have hidx : ∀ l ∈ levels, ∃ j, ∃ hj : j < levels.length, levels.getD j 0 = l := by
    intro l hl
    rcases List.mem_iff_getElem.mp hl with ⟨j, hj, hjl⟩
    exact ⟨j, hj, by rw [List.getD_eq_getElem _ _ hj]; exact hjl⟩
  by_cases hA : value ≤ levels.getD 0 0
  · have hres : DitheringCommon.find_closest_level value levels = levels.getD 0 0 := by
      simp only [DitheringCommon.find_closest_level, if_pos hA]
    refine ⟨hres ▸ hmem 0 hlen, ?_, fun _ => hres, ?_, ?_⟩
    · intro l hl
      rcases hidx l hl with ⟨j, hj, hjl⟩
      have h1 : levels.getD 0 0 ≤ levels.getD j 0 :=
        DitheringCommon.pairwise_le_getD hs (Nat.zero_le j) hj
      rw [hres, ← hjl]
      omega
    · intro hB
      rcases Nat.lt_or_ge 1 levels.length with h2 | h2
      · have h3 := DitheringCommon.pairwise_lt_getD hs
          (show 0 < levels.length - 1 by omega) (show levels.length - 1 < levels.length by omega)
        exfalso; omega
      · have h3 : levels.length - 1 = 0 := by omega
        rw [hres, h3]
    · intro i hi htie
      have h1 : levels.getD 0 0 ≤ levels.getD i 0 :=
        DitheringCommon.pairwise_le_getD hs (Nat.zero_le i) (by omega)
      have h2 : levels.getD i 0 < levels.getD (i + 1) 0 :=
        DitheringCommon.pairwise_lt_getD hs (by omega) hi
      exfalso; omega
  · by_cases hB : levels.getD (levels.length - 1) 0 ≤ value
    · have hres : DitheringCommon.find_closest_level value levels
          = levels.getD (levels.length - 1) 0 := by
        simp only [DitheringCommon.find_closest_level, if_neg hA, if_pos hB]
      refine ⟨hres ▸ hmem _ (by omega), ?_, fun h => absurd h hA, fun _ => hres, ?_⟩
      · intro l hl
        rcases hidx l hl with ⟨j, hj, hjl⟩
        have h1 : levels.getD j 0 ≤ levels.getD (levels.length - 1) 0 :=
          DitheringCommon.pairwise_le_getD hs (by omega) (by omega)
        rw [hres, ← hjl]
        omega
      · intro i hi htie
        have h1 : levels.getD (i + 1) 0 ≤ levels.getD (levels.length - 1) 0 :=
          DitheringCommon.pairwise_le_getD hs (by omega) (by omega)
        have h2 : levels.getD i 0 < levels.getD (i + 1) 0 :=
          DitheringCommon.pairwise_lt_getD hs (by omega) hi
        exfalso; omega
    · have hv0 : levels.getD 0 0 < value := by omega
      have hvlast : value < levels.getD (levels.length - 1) 0 := by omega
      have hspec := DitheringCommon.binary_search_go_spec levels value hs
        levels.length 0 levels.length (Nat.le_refl _) (by omega) (by omega)
        (fun i h => absurd h (Nat.not_lt_zero i))
        (fun i h1 h2 => by omega)
      cases heq : DitheringCommon.binary_search_go levels value levels.length 0 levels.length with
      | ok idx =>
        rw [heq] at hspec
        have hres : DitheringCommon.find_closest_level value levels = levels.getD idx 0 := by
          simp only [DitheringCommon.find_closest_level, if_neg hA, if_neg hB, heq]
        refine ⟨hres ▸ hmem idx hspec.1, ?_, fun h => absurd h hA,
          fun h => absurd h hB, ?_⟩
        · intro l hl
          rw [hres, hspec.2]
          omega
        · intro i hi htie
          have h2 : levels.getD i 0 < levels.getD (i + 1) 0 :=
            DitheringCommon.pairwise_lt_getD hs (by omega) hi
          exfalso
          rcases Nat.lt_or_ge i idx with hcmp | hcmp
          · have h3 : levels.getD (i + 1) 0 ≤ levels.getD idx 0 :=
              DitheringCommon.pairwise_le_getD hs (by omega) hspec.1
            have h4 := hspec.2
            omega
          · have h3 : levels.getD idx 0 ≤ levels.getD i 0 :=
              DitheringCommon.pairwise_le_getD hs (by omega) (by omega)
            have h4 := hspec.2
            omega
      | error idx =>
        rw [heq] at hspec
        have hidx_pos : 0 < idx := by
          by_contra h
          have h1 := hspec.2 0 (by omega) hlen
          omega
        have hidx_len : idx < levels.length := by
          by_contra h
          have h1 := hspec.1 (levels.length - 1) (by omega)
          omega
        have hprev : levels.getD (idx - 1) 0 < value := hspec.1 (idx - 1) (by omega)
        have hnext : value < levels.getD idx 0 := hspec.2 idx (Nat.le_refl _) hidx_len
        have hres : DitheringCommon.find_closest_level value levels
            = if value - levels.getD (idx - 1) 0 ≤ levels.getD idx 0 - value
              then levels.getD (idx - 1) 0 else levels.getD idx 0 := by
          simp only [DitheringCommon.find_closest_level, if_neg hA, if_neg hB, heq]
        have htie_common : ∀ i, i + 1 < levels.length →
            (value : Int) - (levels.getD i 0 : Int)
              = (levels.getD (i + 1) 0 : Int) - (value : Int) →
            idx = i + 1 := by
          intro i hi htie
          have h2 : levels.getD i 0 < levels.getD (i + 1) 0 :=
            DitheringCommon.pairwise_lt_getD hs (by omega) hi
          have hlow : i < idx := by
            by_contra h
            have h3 := hspec.2 i (by omega) (by omega)
            omega
          have hhigh : idx ≤ i + 1 := by
            by_contra h
            have h3 := hspec.1 (i + 1) (by omega)
            omega
          omega
        by_cases hbr : value - levels.getD (idx - 1) 0 ≤ levels.getD idx 0 - value
        · have hres' : DitheringCommon.find_closest_level value levels
              = levels.getD (idx - 1) 0 := by rw [hres, if_pos hbr]
          refine ⟨hres' ▸ hmem _ (by omega), ?_, fun h => absurd h hA,
            fun h => absurd h hB, ?_⟩
          · intro l hl
            rcases hidx l hl with ⟨j, hj, hjl⟩
            rw [hres', ← hjl]
            rcases Nat.lt_or_ge j idx with hji | hji
            · have h1 : levels.getD j 0 ≤ levels.getD (idx - 1) 0 :=
                DitheringCommon.pairwise_le_getD hs (by omega) (by omega)
              omega
            · have h1 : levels.getD idx 0 ≤ levels.getD j 0 :=
                DitheringCommon.pairwise_le_getD hs hji hj
              omega
          · intro i hi htie
            have h4 := htie_common i hi htie
            rw [hres']
            congr 1
            omega
        · have hres' : DitheringCommon.find_closest_level value levels
              = levels.getD idx 0 := by rw [hres, if_neg hbr]
          refine ⟨hres' ▸ hmem _ hidx_len, ?_, fun h => absurd h hA,
            fun h => absurd h hB, ?_⟩
          · intro l hl
            rcases hidx l hl with ⟨j, hj, hjl⟩
            rw [hres', ← hjl]
            rcases Nat.lt_or_ge j idx with hji | hji
            · have h1 : levels.getD j 0 ≤ levels.getD (idx - 1) 0 :=
                DitheringCommon.pairwise_le_getD hs (by omega) (by omega)
              omega
            · have h1 : levels.getD idx 0 ≤ levels.getD j 0 :=
                DitheringCommon.pairwise_le_getD hs hji hj
              omega
          · intro i hi htie
            have h4 := htie_common i hi htie
            have h5 : idx - 1 = i := by omega
            rw [h5] at hprev hbr
            have h6 : levels.getD i 0 < levels.getD (i + 1) 0 :=
              DitheringCommon.pairwise_lt_getD hs (by omega) hi
            exfalso
            rw [← h4] at htie
            omega

/-- C7 witness: the claim instantiated at the level table `[0, 128, 255]`
(from `k = 3`) and value 64 — on the tie between 0 and 128 the lower
level is chosen and no entry is strictly closer. -/
theorem C7_find_closest_level_nearest_witness :
    DitheringCommon.find_closest_level 64 [0, 128, 255] ∈ ([0, 128, 255] : List Nat)
    ∧ (∀ l ∈ ([0, 128, 255] : List Nat),
        ((64 : Int) - (DitheringCommon.find_closest_level 64 [0, 128, 255] : Int)).natAbs
          ≤ ((64 : Int) - (l : Int)).natAbs)
    ∧ (∀ i, i + 1 < ([0, 128, 255] : List Nat).length →
        (64 : Int) - (([0, 128, 255] : List Nat).getD i 0 : Int)
          = (([0, 128, 255] : List Nat).getD (i + 1) 0 : Int) - (64 : Int) →
        DitheringCommon.find_closest_level 64 [0, 128, 255]
          = ([0, 128, 255] : List Nat).getD i 0) := by
  have h := C7_find_closest_level_nearest [0, 128, 255] 64 (by decide) (by decide)
  exact ⟨h.1, h.2.1, h.2.2.2.2⟩

/-! ## Threshold matrices (claim C8) -/

theorem perm_range_of_nodup (l : List Nat) (n : Nat) (hnd : l.Nodup)
    (hlen : l.length = n) (hlt : ∀ x ∈ l, x < n) : l.Perm (List.range n) := by
  apply List.perm_of_nodup_nodup_toFinset_eq hnd (List.nodup_range n)
  have h1 : (List.range n).toFinset = Finset.range n := by
    ext x; simp
  rw [h1]
  apply Finset.eq_of_subset_of_card_le
  · intro x hx
    rw [Finset.mem_range]
    exact hlt x (List.mem_toFinset.mp hx)
  · rw [Finset.card_range, List.toFinset_card_of_nodup hnd, hlen]

set_option maxRecDepth 10000 in
/-- C8: for every `n` in `{2,3,4,6,8,12,16}`, `generate_matrix n` is an
`n × n` table (`n` rows, each of length `n`, stated as the row-length
list being `replicate n n`) whose entries are exactly the integers in
`[0, n²)`, each occurring once (its flattening is a permutation of
`range (n²)`); and for `n > 3` it equals the quadrant tiling
`4·sub + {0,2,3,1}` of the matrix generated for `n / 2`. -/
theorem C8_threshold_matrix_permutation :
    ((OrderedDitheringCommon.generate_matrix 2).map List.length = List.replicate 2 2
      ∧ (OrderedDitheringCommon.generate_matrix 2).flatten.Perm (List.range (2 * 2)))
    ∧ ((OrderedDitheringCommon.generate_matrix 3).map List.length = List.replicate 3 3
      ∧ (OrderedDitheringCommon.generate_matrix 3).flatten.Perm (List.range (3 * 3)))
    ∧ ((OrderedDitheringCommon.generate_matrix 4).map List.length = List.replicate 4 4
      ∧ (OrderedDitheringCommon.generate_matrix 4).flatten.Perm (List.range (4 * 4)))
    ∧ ((OrderedDitheringCommon.generate_matrix 6).map List.length = List.replicate 6 6
      ∧ (OrderedDitheringCommon.generate_matrix 6).flatten.Perm (List.range (6 * 6)))
    ∧ ((OrderedDitheringCommon.generate_matrix 8).map List.length = List.replicate 8 8
      ∧ (OrderedDitheringCommon.generate_matrix 8).flatten.Perm (List.range (8 * 8)))
    ∧ ((OrderedDitheringCommon.generate_matrix 12).map List.length = List.replicate 12 12
      ∧ (OrderedDitheringCommon.generate_matrix 12).flatten.Perm (List.range (12 * 12)))
    ∧ ((OrderedDitheringCommon.generate_matrix 16).map List.length = List.replicate 16 16
      ∧ (OrderedDitheringCommon.generate_matrix 16).flatten.Perm (List.range (16 * 16)))
    ∧ (OrderedDitheringCommon.generate_matrix 4
        = OrderedDitheringCommon.tile_quadrants (OrderedDitheringCommon.generate_matrix (4 / 2)))
    ∧ (OrderedDitheringCommon.generate_matrix 6
        = OrderedDitheringCommon.tile_quadrants (OrderedDitheringCommon.generate_matrix (6 / 2)))
    ∧ (OrderedDitheringCommon.generate_matrix 8
        = OrderedDitheringCommon.tile_quadrants (OrderedDitheringCommon.generate_matrix (8 / 2)))
    ∧ (OrderedDitheringCommon.generate_matrix 12
        = OrderedDitheringCommon.tile_quadrants (OrderedDitheringCommon.generate_matrix (12 / 2)))
    ∧ (OrderedDitheringCommon.generate_matrix 16
        = OrderedDitheringCommon.tile_quadrants (OrderedDitheringCommon.generate_matrix (16 / 2))) := by
  have e2 : OrderedDitheringCommon.generate_matrix 2 = [[0, 2], [3, 1]] := by
    simp [OrderedDitheringCommon.generate_matrix]
  have e3 : OrderedDitheringCommon.generate_matrix 3
      = [[6, 8, 4], [1, 0, 3], [5, 2, 7]] := by
    simp [OrderedDitheringCommon.generate_matrix]
  have e4 : OrderedDitheringCommon.generate_matrix 4
      = [[0, 8, 2, 10], [12, 4, 14, 6], [3, 11, 1, 9], [15, 7, 13, 5]] := by
    simp [OrderedDitheringCommon.generate_matrix]
  have e6 : OrderedDitheringCommon.generate_matrix 6
      = [[24, 32, 16, 26, 34, 18], [4, 0, 12, 6, 2, 14], [20, 8, 28, 22, 10, 30],
         [27, 35, 19, 25, 33, 17], [7, 3, 15, 5, 1, 13], [23, 11, 31, 21, 9, 29]] := by
    simp [OrderedDitheringCommon.generate_matrix]
  have e8 : OrderedDitheringCommon.generate_matrix 8
      = [[0, 32, 8, 40, 2, 34, 10, 42], [48, 16, 56, 24, 50, 18, 58, 26],
         [12, 44, 4, 36, 14, 46, 6, 38], [60, 28, 52, 20, 62, 30, 54, 22],
         [3, 35, 11, 43, 1, 33, 9, 41], [51, 19, 59, 27, 49, 17, 57, 25],
         [15, 47, 7, 39, 13, 45, 5, 37], [63, 31, 55, 23, 61, 29, 53, 21]] := by
    simp [OrderedDitheringCommon.generate_matrix]
  have e12 : OrderedDitheringCommon.generate_matrix 12
      = [[96, 128, 64, 104, 136, 72, 98, 130, 66, 106, 138, 74],
         [16, 0, 48, 24, 8, 56, 18, 2, 50, 26, 10, 58],
         [80, 32, 112, 88, 40, 120, 82, 34, 114, 90, 42, 122],
         [108, 140, 76, 100, 132, 68, 110, 142, 78, 102, 134, 70],
         [28, 12, 60, 20, 4, 52, 30, 14, 62, 22, 6, 54],
         [92, 44, 124, 84, 36, 116, 94, 46, 126, 86, 38, 118],
         [99, 131, 67, 107, 139, 75, 97, 129, 65, 105, 137, 73],
         [19, 3, 51, 27, 11, 59, 17, 1, 49, 25, 9, 57],
         [83, 35, 115, 91, 43, 123, 81, 33, 113, 89, 41, 121],
         [111, 143, 79, 103, 135, 71, 109, 141, 77, 101, 133, 69],
         [31, 15, 63, 23, 7, 55, 29, 13, 61, 21, 5, 53],
         [95, 47, 127, 87, 39, 119, 93, 45, 125, 85, 37, 117]] := by
    simp [OrderedDitheringCommon.generate_matrix]
  have e16 : OrderedDitheringCommon.generate_matrix 16
      = [[0, 128, 32, 160, 8, 136, 40, 168, 2, 130, 34, 162, 10, 138, 42, 170],
         [192, 64, 224, 96, 200, 72, 232, 104, 194, 66, 226, 98, 202, 74, 234, 106],
         [48, 176, 16, 144, 56, 184, 24, 152, 50, 178, 18, 146, 58, 186, 26, 154],
         [240, 112, 208, 80, 248, 120, 216, 88, 242, 114, 210, 82, 250, 122, 218, 90],
         [12, 140, 44, 172, 4, 132, 36, 164, 14, 142, 46, 174, 6, 134, 38, 166],
         [204, 76, 236, 108, 196, 68, 228, 100, 206, 78, 238, 110, 198, 70, 230, 102],
         [60, 188, 28, 156, 52, 180, 20, 148, 62, 190, 30, 158, 54, 182, 22, 150],
         [252, 124, 220, 92, 244, 116, 212, 84, 254, 126, 222, 94, 246, 118, 214, 86],
         [3, 131, 35, 163, 11, 139, 43, 171, 1, 129, 33, 161, 9, 137, 41, 169],
         [195, 67, 227, 99, 203, 75, 235, 107, 193, 65, 225, 97, 201, 73, 233, 105],
         [51, 179, 19, 147, 59, 187, 27, 155, 49, 177, 17, 145, 57, 185, 25, 153],
         [243, 115, 211, 83, 251, 123, 219, 91, 241, 113, 209, 81, 249, 121, 217, 89],
         [15, 143, 47, 175, 7, 135, 39, 167, 13, 141, 45, 173, 5, 133, 37, 165],
         [207, 79, 239, 111, 199, 71, 231, 103, 205, 77, 237, 109, 197, 69, 229, 101],
         [63, 191, 31, 159, 55, 183, 23, 151, 61, 189, 29, 157, 53, 181, 21, 149],
         [255, 127, 223, 95, 247, 119, 215, 87, 253, 125, 221, 93, 245, 117, 213, 85]] := by
    rw [OrderedDitheringCommon.generate_matrix.eq_def]
    norm_num [e8]
  refine ⟨⟨by rw [e2]; decide, by rw [e2]; exact perm_range_of_nodup _ _ (by decide) (by decide) (by decide)⟩,
    ⟨by rw [e3]; decide, by rw [e3]; exact perm_range_of_nodup _ _ (by decide) (by decide) (by decide)⟩,
    ⟨by rw [e4]; decide, by rw [e4]; exact perm_range_of_nodup _ _ (by decide) (by decide) (by decide)⟩,
    ⟨by rw [e6]; decide, by rw [e6]; exact perm_range_of_nodup _ _ (by decide) (by decide) (by decide)⟩,
    ⟨by rw [e8]; decide, by rw [e8]; exact perm_range_of_nodup _ _ (by decide) (by decide) (by decide)⟩,
    ⟨by rw [e12]; decide, by rw [e12]; exact perm_range_of_nodup _ _ (by decide) (by decide) (by decide)⟩,
    ⟨by rw [e16]; decide, by rw [e16]; exact perm_range_of_nodup _ _ (by decide) (by decide) (by decide)⟩,
    by rw [show (4 : Nat) / 2 = 2 from rfl, e4, e2]; decide,
    by rw [show (6 : Nat) / 2 = 3 from rfl, e6, e3]; decide,
    by rw [show (8 : Nat) / 2 = 4 from rfl, e8, e4]; decide,
    by rw [show (12 : Nat) / 2 = 6 from rfl, e12, e6]; decide,
    by rw [show (16 : Nat) / 2 = 8 from rfl, e16, e8]; decide⟩

/-! ## Ordered-dithering column selection (claim C9) -/

/-- C9: for the relative ordered-dithering `get_color` with a level
table built for channel parameter `k ∈ [2,255]`, a channel value
`≤ 255`, and any threshold matrix and raster position: writing
`col = ⌊value·(len−1)/255⌋`, `re = value·(len−1) mod 255`, threshold
cell `(x mod n, y mod n)`, and `col_chosen = col+1` when
`re > matrix[i][j]·255/n²` (else `col`), the chosen column never exceeds
`len − 1` (the level index is always in bounds), and the per-channel
output equals `levels[min(col_chosen, len−1)]`. -/
theorem C9_ordered_relative_col_bound (k : Nat) {value x y : Nat}
    {matrix : List (List Nat)} {levels : List Nat} {n col re final_col : Nat}
    (hk : 2 ≤ k) (hk' : k ≤ 255) (hv : value ≤ 255)
    (hlevels : levels = DitheringCommon.generate_color_levels k)
    (_hn : n = OrderedDitheringCommon.find_n k)
    (hcol : col = value * (levels.length - 1) / 255)
    (hre : re = value * (levels.length - 1) % 255)
    (hfc : final_col
      = if (matrix.getD (x % n) []).getD (y % n) 0 * 255 / (n * n) < re
        then col + 1 else col) :
    final_col ≤ levels.length - 1
    ∧ OrderedDitheringRelativeColorQuantizer.get_color value levels matrix x y n
        = levels.getD (min final_col (levels.length - 1)) 0 := by
  have hlen : levels.length = k := by
    rw [hlevels]; exact DitheringCommon.length_generate_color_levels k
  have hb : final_col ≤ levels.length - 1 := by
    rw [hfc, hcol, hre, hlen]
    rcases Nat.lt_or_ge value 255 with hlt | hge
    · have hcol_lt : value * (k - 1) / 255 < k - 1 := by
        rw [Nat.div_lt_iff_lt_mul (by norm_num : 0 < 255)]
        have h1 : 0 < k - 1 := by omega
        calc value * (k - 1) < 255 * (k - 1) := by
              exact Nat.mul_lt_mul_of_lt_of_le hlt (Nat.le_refl _) h1
          _ = (k - 1) * 255 := by ring
      split <;> omega
    · have h255 : value = 255 := by omega
      subst h255
      have hcoleq : 255 * (k - 1) / 255 = k - 1 :=
        Nat.mul_div_cancel_left _ (by norm_num)
      have hreeq : 255 * (k - 1) % 255 = 0 := Nat.mul_mod_right 255 _
      rw [hcoleq, hreeq]
      simp
  refine ⟨hb, ?_⟩
  rw [Nat.min_eq_left hb]
  rw [hfc, hcol, hre]
  rfl

/-- C9 witness: `k = 100` (so `n = 2`, base matrix `[[0,2],[3,1]]`),
value 200 at raster position `(0,1)`: `col = 77`, `re = 165`, the
threshold `2·255/4 = 127` is exceeded, so `col_chosen = 78 ≤ 99`. -/
theorem C9_ordered_relative_col_bound_witness :
    (78 : Nat) ≤ (DitheringCommon.generate_color_levels 100).length - 1
    ∧ OrderedDitheringRelativeColorQuantizer.get_color 200
        (DitheringCommon.generate_color_levels 100) [[0, 2], [3, 1]] 0 1 2
      = (DitheringCommon.generate_color_levels 100).getD
          (min 78 ((DitheringCommon.generate_color_levels 100).length - 1)) 0 :=
  C9_ordered_relative_col_bound 100 (by decide) (by decide) (by decide)
    rfl (by decide) rfl rfl (by decide)

/-! ## Error-diffusion boundary handling (claim C1) -/

/-- C1 (refuted by the code — the guard in `add_error` is only the
linear bound `id < output_pixels.len()`, with no column bound): for the
2×2 gray image `[0, 120, 100, 0]` with `k = 2` per channel, the
last-column pixel at index 1 (row 0, column 1) diffuses its `7/16`
"right" residual to linear index `row·width + (column+1) = 2` — the
first pixel of row 1 — which flips that pixel to 255.  Under the
spec-clamped variant, where out-of-column-range targets are skipped,
the same pixel stays 0.  The third conjunct isolates the `add_error`
call itself: the "right" write of a last-column pixel (`col = width`)
lands at `(row+1)·width`, the first pixel of the next row, instead of
being skipped. -/
theorem C1_error_diffusion_wraparound_bug :
    (ErrorDiffusionDitheringColorQuantizer.generate_output_image ⟨2, 2, 2⟩
        ⟨2, 2, [⟨0, 0, 0, 255⟩, ⟨120, 120, 120, 255⟩,
                ⟨100, 100, 100, 255⟩, ⟨0, 0, 0, 255⟩]⟩).pixels.getD 2 ⟨0, 0, 0, 0⟩
      = ⟨255, 255, 255, 255⟩
    ∧ (ErrorDiffusionDitheringColorQuantizer.generate_output_image_clamped ⟨2, 2, 2⟩
        ⟨2, 2, [⟨0, 0, 0, 255⟩, ⟨120, 120, 120, 255⟩,
                ⟨100, 100, 100, 255⟩, ⟨0, 0, 0, 255⟩]⟩).pixels.getD 2 ⟨0, 0, 0, 0⟩
      = ⟨0, 0, 0, 255⟩
    ∧ ErrorDiffusionDitheringColorQuantizer.add_error
        [⟨0, 0, 0, 255⟩, ⟨0, 0, 0, 255⟩, ⟨100, 100, 100, 255⟩, ⟨0, 0, 0, 255⟩]
        0 2 2 7 120 120 120
      = [⟨0, 0, 0, 255⟩, ⟨0, 0, 0, 255⟩, ⟨152, 152, 152, 255⟩, ⟨0, 0, 0, 255⟩]
    ∧ ErrorDiffusionDitheringColorQuantizer.add_error_clamped
        [⟨0, 0, 0, 255⟩, ⟨0, 0, 0, 255⟩, ⟨100, 100, 100, 255⟩, ⟨0, 0, 0, 255⟩]
        0 2 2 7 120 120 120
      = [⟨0, 0, 0, 255⟩, ⟨0, 0, 0, 255⟩, ⟨100, 100, 100, 255⟩, ⟨0, 0, 0, 255⟩] := by
  decide

/-! ## Popularity quantizer on an empty image (claim C4) -/

/-- C4 (refuted by the code): on an image with zero pixels the
popularity quantizer does not fail at all — the pixel-mapping pass has
nothing to iterate, `find_closest_color` (whose
`expect("Color should never be empty")` is the only "empty palette"
condition) is never invoked, and an empty image is silently returned. -/
theorem C4_empty_image_counterexample :
    PopularityAlgorithmColorQuantizer.generate_output_image [] ⟨2⟩ ⟨0, 0, []⟩
      = some ⟨0, 0, []⟩ := by
  decide

/-- C4 amended: for every HashMap iteration order and every `k`, the
popularity quantizer on a zero-pixel image silently returns an empty
image (`some`, never the modelled panic `none`): the explicit "empty
palette" failure demanded by the spec does not happen. -/
theorem C4_empty_image_returns_empty (iterOrder : List Color) (k : Nat) :
    PopularityAlgorithmColorQuantizer.generate_output_image iterOrder ⟨k⟩ ⟨0, 0, []⟩
      = some ⟨0, 0, []⟩ := rfl

/-! ## Determinism across runs (claim C3) -/

/-- C3 (refuted by the code for `PopularityAlgorithm`): the popularity
palette is built from a `HashMap` whose iteration order varies between
runs (per-instance random hash state), and count ties are broken by
that order.  On the 3×1 image with three distinct colors (each of
frequency 1) and `k = 2`, two legitimate iteration orders yield
different palettes and byte-different outputs — with the entropy oracle
and everything else held fixed. -/
theorem C3_popularity_order_counterexample :
    create_new_image (fun _ _ => (0, 0))
        [⟨0, 0, 0, 255⟩, ⟨255, 0, 0, 255⟩, ⟨0, 255, 0, 255⟩]
        ⟨.PopularityAlgorithm, .Popularity ⟨2⟩⟩
        ⟨3, 1, [⟨0, 0, 0, 255⟩, ⟨255, 0, 0, 255⟩, ⟨0, 255, 0, 255⟩]⟩
      ≠ create_new_image (fun _ _ => (0, 0))
        [⟨0, 255, 0, 255⟩, ⟨255, 0, 0, 255⟩, ⟨0, 0, 0, 255⟩]
        ⟨.PopularityAlgorithm, .Popularity ⟨2⟩⟩
        ⟨3, 1, [⟨0, 0, 0, 255⟩, ⟨255, 0, 0, 255⟩, ⟨0, 255, 0, 255⟩]⟩ := by
  decide

/-- C3 amended: quantization is deterministic for `AverageDithering`,
`ErrorDiffusionDithering`, and `OrderedDitheringRelative` — two runs
with the same key and source image produce identical output whatever
the run's nondeterministic inputs (the `thread_rng` entropy and the
HashMap iteration order) are; `PopularityAlgorithm` is only
deterministic up to the HashMap iteration order (see the
counterexample), and `OrderedDitheringRandom` depends on the entropy by
design. -/
theorem C3_deterministic_quantizers
    (key : AlgorithmCacheKey) (img : Image)
    (e₁ e₂ : OrderedDitheringCommon.Entropy) (o₁ o₂ : List Color)
    (halg : key.algorithm = .AverageDithering
      ∨ key.algorithm = .ErrorDiffusionDithering
      ∨ key.algorithm = .OrderedDitheringRelative) :
    create_new_image e₁ o₁ key img = create_new_image e₂ o₂ key img := by
  obtain ⟨alg, params⟩ := key
  rcases halg with h | h | h <;> simp only at h <;> subst h <;>
    cases params <;> rfl

/-- C3 witness: two `AverageDithering` runs with different entropy
oracles and different iteration orders coincide. -/
theorem C3_deterministic_quantizers_witness :
    create_new_image (fun _ _ => (0, 0)) []
        ⟨.AverageDithering, .Dithering ⟨2, 2, 2⟩⟩ ⟨1, 1, [⟨7, 8, 9, 10⟩]⟩
      = create_new_image (fun _ _ => (1, 1)) [⟨1, 2, 3, 4⟩]
        ⟨.AverageDithering, .Dithering ⟨2, 2, 2⟩⟩ ⟨1, 1, [⟨7, 8, 9, 10⟩]⟩ :=
  C3_deterministic_quantizers _ _ _ _ _ _ (Or.inl rfl)

/-- C6 witness: the claim instantiated at `k = 5`. -/
theorem C6_level_table_build_witness :
    (DitheringCommon.generate_color_levels 5).length = 5
    ∧ (∀ i, i < 5 → (DitheringCommon.generate_color_levels 5).getD i 0
        = (2 * (i * 255) + (5 - 1)) / (2 * (5 - 1)))
    ∧ (DitheringCommon.generate_color_levels 5).Pairwise (· < ·)
    ∧ (DitheringCommon.generate_color_levels 5).getD 0 0 = 0
    ∧ (DitheringCommon.generate_color_levels 5).getD (5 - 1) 0 = 255 :=
  C6_level_table_build (by decide) (by decide)

end ColorQuantizer
